import Mathlib

/-!
Verification of the session persistence and resumption subsystem.

Shallow embedding of `src/browser_agent.py`: the JSON transcript codec
(`json.dumps` / `json.loads` composed with the message adapter), the
SQLite-backed `SessionStore` (`create_session`, `list_sessions`,
`load_messages`, `save_messages`), the session selector
(`BrowserAgent._choose_session`), and the conversation loop
(`BrowserAgent.start_conversation`).

Modelling conventions:
* A stored row of the `sessions` table is a `Row` (id, created_at, data);
  the whole table is a `Store` (a list of rows, in insertion order —
  SQLite appends inserted rows).
* Python exceptions are the `PyExc` type; fallible operations return
  `Except PyExc`.
* A conversation message is kept in its canonical jsonable form `Json`
  (the value produced by `to_jsonable_python`); the JSON fragment covers
  null, booleans, arbitrary-precision integers, strings, arrays and
  objects (floats are outside the model).  `dumps`/`loads` are translated
  from the behaviour of Python's `json.dumps(x, ensure_ascii=False)` and
  `json.loads` on this fragment, including Python's error behaviour on
  empty, whitespace-only and syntactically invalid input.
* User input strings are modelled over the ASCII fragment of Python's
  `str.strip` / `str.lower`, and `str.isdigit` / `int` over the ASCII
  decimal digits extended with the Latin-1 superscript digits ¹ ² ³ —
  characters that satisfy `str.isdigit` but that `int()` rejects with a
  `ValueError`, which the selector does not catch.
-/

/-- Python exception values that the embedded code can raise. -/
inductive PyExc where
  | jsonDecodeError
  | validationError
  | integrityError
  | storeUnavailable
  | agentError
  | valueError
deriving DecidableEq

/-- Canonical jsonable Python data (the value domain of
`to_jsonable_python` / `json.dumps` / `json.loads`), restricted to the
float-free fragment. -/
inductive Json where
  | null : Json
  | bool (b : Bool) : Json
  | int (n : Int) : Json
  | str (s : String) : Json
  | arr (xs : List Json) : Json
  | obj (kvs : List (String × Json)) : Json

/-- ASCII decimal digit test (the character class used by Python's JSON
number scanner). -/
def isDigitB (c : Char) : Bool := 48 ≤ c.toNat && c.toNat ≤ 57

/-- JSON insignificant whitespace (space, tab, newline, carriage return),
as skipped by Python's `json` scanner. -/
def isJsonWs (c : Char) : Bool :=
  c.toNat = 32 || c.toNat = 9 || c.toNat = 10 || c.toNat = 13

/-- The decimal digit character for `n < 10`. -/
def digitChar (n : Nat) : Char := Char.ofNat (48 + n)

/-- The lowercase hex digit character for `n < 16` (as produced by
Python's `\uXXXX` escapes). -/
def hexDigitChar (n : Nat) : Char :=
  if n < 10 then Char.ofNat (48 + n) else Char.ofNat (87 + n)

/-- Decimal digits of `n`, most significant first; `fuel` bounds the
recursion and any `fuel > n` is enough. -/
def natChars : Nat → Nat → List Char
  | 0, _ => []
  | fuel + 1, n =>
    if n < 10 then [digitChar n] else natChars fuel (n / 10) ++ [digitChar (n % 10)]

/-- Python's decimal rendering of an integer (`repr` of an `int`). -/
def intChars (i : Int) : List Char :=
  if i < 0 then '-' :: natChars (i.natAbs + 1) i.natAbs else natChars (i.toNat + 1) i.toNat

/-- How `json.dumps(..., ensure_ascii=False)` escapes one character of a
string: `"` and `\` get a backslash, the five named control escapes are
used where they exist, other control characters become `\u00XX`, and
everything else is emitted verbatim. -/
def escChar (c : Char) : List Char :=
  if c = '"' then [ '\\', '"']
  else if c = '\\' then [ '\\', '\\']
  else if c = '\n' then [ '\\', 'n']
  else if c = '\t' then [ '\\', 't']
  else if c = '\r' then [ '\\', 'r']
  else if c = '\x08' then [ '\\', 'b']
  else if c = '\x0c' then [ '\\', 'f']
  else if c.toNat < 32 then
    [ '\\', 'u', '0', '0', hexDigitChar (c.toNat / 16), hexDigitChar (c.toNat % 16)]
  else [c]

/-- Escaped body of a JSON string including the closing quote. -/
def escStr : List Char → List Char
  | [] => [ '"']
  | c :: cs => escChar c ++ escStr cs

mutual

/-- `json.dumps(x, ensure_ascii=False)` with the default separators
`( ", ", ": " )`, on the float-free fragment, producing characters. -/
def dumpVal : Json → List Char
  | .null => "null".data
  | .bool true => "true".data
  | .bool false => "false".data
  | .int n => intChars n
  | .str s => '"' :: escStr s.data
  | .arr [] => [ '[', ']']
  | .arr (x :: xs) => '[' :: (dumpVal x ++ dumpItemsTail xs)
  | .obj [] => [ '\x7b', '\x7d']
  | .obj (kv :: kvs) => '\x7b' :: (dumpMember kv ++ dumpMembersTail kvs)

/-- Remaining array items after the first: `", item"` repeated, then `]`. -/
def dumpItemsTail : List Json → List Char
  | [] => [ ']']
  | x :: xs => ',' :: ' ' :: (dumpVal x ++ dumpItemsTail xs)

/-- One object member: `"key": value`. -/
def dumpMember : String × Json → List Char
  | (k, v) => '"' :: (escStr k.data ++ ':' :: ' ' :: dumpVal v)

/-- Remaining object members after the first, then the closing brace. -/
def dumpMembersTail : List (String × Json) → List Char
  | [] => [ '\x7d']
  | kv :: kvs => ',' :: ' ' :: (dumpMember kv ++ dumpMembersTail kvs)

end

/-- `json.dumps(x, ensure_ascii=False)` as a string. -/
def dumps (j : Json) : String := String.mk (dumpVal j)

/-- Fold decimal digit characters onto an accumulator
(`acc * 10 + digit` per character). -/
def foldDigits (acc : Nat) : List Char → Nat
  | [] => acc
  | c :: cs => foldDigits (acc * 10 + (c.toNat - 48)) cs

/-- Scan a JSON natural number: `0` alone, or a nonzero leading digit
followed greedily by digits (Python's `0|[1-9]\d*`). -/
def parseNatChars : List Char → Option (Nat × List Char)
  | [] => none
  | c :: rest =>
    if c = '0' then some (0, rest)
    else if isDigitB c then
      some (foldDigits (c.toNat - 48) (rest.takeWhile isDigitB), rest.dropWhile isDigitB)
    else none

/-- Scan a JSON integer: optional minus sign then a natural number. -/
def parseNumChars : List Char → Option (Int × List Char)
  | [] => none
  | c :: rest =>
    if c = '-' then
      match parseNatChars rest with
      | some (n, r) => some (-(n : Int), r)
      | none => none
    else
      match parseNatChars (c :: rest) with
      | some (n, r) => some ((n : Int), r)
      | none => none

/-- Value of one hex digit character, if it is one. -/
def hexVal (c : Char) : Option Nat :=
  if 48 ≤ c.toNat ∧ c.toNat ≤ 57 then some (c.toNat - 48)
  else if 97 ≤ c.toNat ∧ c.toNat ≤ 102 then some (c.toNat - 87)
  else if 65 ≤ c.toNat ∧ c.toNat ≤ 70 then some (c.toNat - 55)
  else none

/-- The character named by a single-character JSON escape. -/
def escUn (e : Char) : Option Char :=
  if e = '"' then some '"'
  else if e = '\\' then some '\\'
  else if e = '/' then some '/'
  else if e = 'n' then some '\n'
  else if e = 't' then some '\t'
  else if e = 'r' then some '\r'
  else if e = 'b' then some '\x08'
  else if e = 'f' then some '\x0c'
  else none

/-- Scan a JSON string body (the opening quote already consumed), in
strict mode as Python does: raw control characters are rejected, escapes
are decoded, the closing quote ends the string. -/
def parseStringBody : List Char → Option (List Char × List Char)
  | [] => none
  | c :: rest =>
    if c = '"' then some ([], rest)
    else if c = '\\' then
      match rest with
      | [] => none
      | e :: rest2 =>
        if e = 'u' then
          match rest2 with
          | h1 :: h2 :: h3 :: h4 :: rest3 =>
            match hexVal h1, hexVal h2, hexVal h3, hexVal h4 with
            | some a, some b, some c2, some d =>
              match parseStringBody rest3 with
              | some (s, r) => some (Char.ofNat (((a * 16 + b) * 16 + c2) * 16 + d) :: s, r)
              | none => none
            | _, _, _, _ => none
          | _ => none
        else
          match escUn e with
          | some ec =>
            match parseStringBody rest2 with
            | some (s, r) => some (ec :: s, r)
            | none => none
          | none => none
    else if c.toNat < 32 then none
    else
      match parseStringBody rest with
      | some (s, r) => some (c :: s, r)
      | none => none

/-- Match an expected literal tail (`ull`, `rue`, `alse`). -/
def dropLit : List Char → List Char → Option (List Char)
  | [], cs => some cs
  | p :: ps, c :: cs => if c = p then dropLit ps cs else none
  | _ :: _, [] => none

mutual

/-- Recursive-descent scan of one JSON value, as Python's `json` scanner
does on the float-free fragment; `fuel` bounds the recursion depth and
any `fuel` exceeding the input length is enough. -/
def parseValue : Nat → List Char → Option (Json × List Char)
  | 0, _ => none
  | fuel + 1, cs =>
    match cs.dropWhile isJsonWs with
    | [] => none
    | c :: rest =>
      if c = 'n' then
        match dropLit [ 'u', 'l', 'l'] rest with
        | some r => some (.null, r)
        | none => none
      else if c = 't' then
        match dropLit [ 'r', 'u', 'e'] rest with
        | some r => some (.bool true, r)
        | none => none
      else if c = 'f' then
        match dropLit [ 'a', 'l', 's', 'e'] rest with
        | some r => some (.bool false, r)
        | none => none
      else if c = '"' then
        match parseStringBody rest with
        | some (s, r) => some (.str (String.mk s), r)
        | none => none
      else if c = '[' then parseArrayRest fuel rest
      else if c = '\x7b' then parseObjRest fuel rest
      else
        match parseNumChars (c :: rest) with
        | some (n, r) => some (.int n, r)
        | none => none

/-- Scan an array after its `[`. -/
def parseArrayRest : Nat → List Char → Option (Json × List Char)
  | 0, _ => none
  | fuel + 1, cs =>
    match cs.dropWhile isJsonWs with
    | [] => none
    | c :: rest =>
      if c = ']' then some (.arr [], rest)
      else
        match parseValue fuel (c :: rest) with
        | some (v, r) =>
          match parseArrayTail fuel r with
          | some (vs, r2) => some (.arr (v :: vs), r2)
          | none => none
        | none => none

/-- Scan the rest of an array after a complete item: a comma and another
item, or the closing bracket. -/
def parseArrayTail : Nat → List Char → Option (List Json × List Char)
  | 0, _ => none
  | fuel + 1, cs =>
    match cs.dropWhile isJsonWs with
    | [] => none
    | c :: rest =>
      if c = ']' then some ([], rest)
      else if c = ',' then
        match parseValue fuel rest with
        | some (v, r) =>
          match parseArrayTail fuel r with
          | some (vs, r2) => some (v :: vs, r2)
          | none => none
        | none => none
      else none

/-- Scan one `"key": value` object member. -/
def parseMember : Nat → List Char → Option ((String × Json) × List Char)
  | 0, _ => none
  | fuel + 1, cs =>
    match cs.dropWhile isJsonWs with
    | [] => none
    | c :: rest =>
      if c = '"' then
        match parseStringBody rest with
        | some (k, r) =>
          match r.dropWhile isJsonWs with
          | ':' :: r2 =>
            match parseValue fuel r2 with
            | some (v, r3) => some ((String.mk k, v), r3)
            | none => none
          | _ => none
        | none => none
      else none

/-- Scan an object after its opening brace. -/
def parseObjRest : Nat → List Char → Option (Json × List Char)
  | 0, _ => none
  | fuel + 1, cs =>
    match cs.dropWhile isJsonWs with
    | [] => none
    | c :: rest =>
      if c = '\x7d' then some (.obj [], rest)
      else
        match parseMember fuel (c :: rest) with
        | some (kv, r) =>
          match parseObjTail fuel r with
          | some (kvs, r2) => some (.obj (kv :: kvs), r2)
          | none => none
        | none => none

/-- Scan the rest of an object after a complete member. -/
def parseObjTail : Nat → List Char → Option (List (String × Json) × List Char)
  | 0, _ => none
  | fuel + 1, cs =>
    match cs.dropWhile isJsonWs with
    | [] => none
    | c :: rest =>
      if c = '\x7d' then some ([], rest)
      else if c = ',' then
        match parseMember fuel rest with
        | some (kv, r) =>
          match parseObjTail fuel r with
          | some (kvs, r2) => some (kv :: kvs, r2)
          | none => none
        | none => none
      else none

end

/-- `json.loads`: scan one value, then allow only trailing whitespace;
empty, whitespace-only and syntactically invalid input all raise
`json.JSONDecodeError`. -/
def loads (s : String) : Except PyExc Json :=
  match parseValue (s.data.length + 1) s.data with
  | some (j, rest) =>
    if (rest.dropWhile isJsonWs).isEmpty then .ok j else .error .jsonDecodeError
  | none => .error .jsonDecodeError

/-- Head-of-list digit guard used by the round-trip lemmas: the
continuation must not begin with a decimal digit (so greedy number
scanning stops at the right place). -/
def noDigitHead : List Char → Bool
  | [] => true
  | c :: _ => !(isDigitB c)

theorem dropWhile_dropWhile (p : Char → Bool) (l : List Char) :
    (l.dropWhile p).dropWhile p = l.dropWhile p := by
  induction l with
  | nil => rfl
  | cons c cs ih =>
    by_cases h : p c = true
    · simp [List.dropWhile_cons, h, ih]
    · simp [List.dropWhile_cons, h]

theorem takeWhile_all_append (p : Char → Bool) (l₁ l₂ : List Char)
    (h : ∀ c ∈ l₁, p c = true) :
    (l₁ ++ l₂).takeWhile p = l₁ ++ l₂.takeWhile p := by
  induction l₁ with
  | nil => rfl
  | cons c cs ih =>
    have hc : p c = true := h c (by simp)
    simp only [List.cons_append, List.takeWhile_cons, hc, if_true]
    rw [ih (fun d hd => h d (by simp [hd]))]

theorem dropWhile_all_append (p : Char → Bool) (l₁ l₂ : List Char)
    (h : ∀ c ∈ l₁, p c = true) :
    (l₁ ++ l₂).dropWhile p = l₂.dropWhile p := by
  induction l₁ with
  | nil => rfl
  | cons c cs ih =>
    have hc : p c = true := h c (by simp)
    simp only [List.cons_append, List.dropWhile_cons, hc, if_true]
    exact ih (fun d hd => h d (by simp [hd]))

theorem takeWhile_noDigitHead (l : List Char) (h : noDigitHead l = true) :
    l.takeWhile isDigitB = [] := by
  cases l with
  | nil => rfl
  | cons c cs =>
    simp only [noDigitHead, Bool.not_eq_true'] at h
    simp [List.takeWhile_cons, h]

theorem dropWhile_noDigitHead (l : List Char) (h : noDigitHead l = true) :
    l.dropWhile isDigitB = l := by
  cases l with
  | nil => rfl
  | cons c cs =>
    simp only [noDigitHead, Bool.not_eq_true'] at h
    simp [List.dropWhile_cons, h]

theorem foldDigits_append (a : Nat) (l₁ l₂ : List Char) :
    foldDigits a (l₁ ++ l₂) = foldDigits (foldDigits a l₁) l₂ := by
  induction l₁ generalizing a with
  | nil => rfl
  | cons c cs ih => exact ih (a * 10 + (c.toNat - 48))

theorem toNat_ofNat_of_lt (n : Nat) (h : n < 55296) : (Char.ofNat n).toNat = n := by
  have hv : n.isValidChar := Or.inl h
  rw [Char.ofNat, dif_pos hv]
  simp [Char.ofNatAux, Char.toNat, UInt32.toNat]

theorem toNat_digitChar (n : Nat) (h : n < 10) : (digitChar n).toNat = 48 + n := by
  exact toNat_ofNat_of_lt (48 + n) (by omega)

theorem isDigitB_digitChar (n : Nat) (h : n < 10) : isDigitB (digitChar n) = true := by
  simp only [isDigitB, toNat_digitChar n h, Bool.and_eq_true, decide_eq_true_eq]
  omega

theorem digitChar_inj_zero (d : Nat) (hd : d < 10) (h : digitChar d = '0') : d = 0 := by
  have h1 : (digitChar d).toNat = 48 + d := toNat_digitChar d hd
  rw [h] at h1
  have : ( '0' : Char).toNat = 48 := by decide
  omega

theorem natChars_all_digit (fuel : Nat) :
    ∀ n, n < fuel → ∀ c ∈ natChars fuel n, isDigitB c = true := by
  induction fuel with
  | zero => intro n hn; omega
  | succ fuel ih =>
    intro n hn c hc
    by_cases h10 : n < 10
    · simp only [natChars, h10, if_true, List.mem_singleton] at hc
      exact hc ▸ isDigitB_digitChar n h10
    · simp only [natChars, h10, if_false, List.mem_append, List.mem_singleton] at hc
      rcases hc with hc | hc
      · exact ih (n / 10) (by omega) c hc
      · exact hc ▸ isDigitB_digitChar (n % 10) (by omega)

theorem natChars_head (fuel : Nat) :
    ∀ n, n < fuel → ∃ d tl, natChars fuel n = digitChar d :: tl ∧ d < 10 ∧ (n ≠ 0 → d ≠ 0) := by
  induction fuel with
  | zero => intro n hn; omega
  | succ fuel ih =>
    intro n hn
    by_cases h10 : n < 10
    · exact ⟨n, [], by simp [natChars, h10], h10, fun h => h⟩
    · obtain ⟨d, tl, heq, hd, hz⟩ := ih (n / 10) (by omega)
      refine ⟨d, tl ++ [digitChar (n % 10)], ?_, hd, fun _ => hz (by omega)⟩
      simp [natChars, h10, heq]

theorem foldDigits_natChars (fuel : Nat) :
    ∀ n, n < fuel → ∀ a, foldDigits a (natChars fuel n) =
      a * 10 ^ (natChars fuel n).length + n := by
  induction fuel with
  | zero => intro n hn; omega
  | succ fuel ih =>
    intro n hn a
    by_cases h10 : n < 10
    · rw [natChars, if_pos h10]
      have h1 : foldDigits a [digitChar n] = a * 10 + ((digitChar n).toNat - 48) := rfl
      rw [h1, toNat_digitChar n h10, List.length_singleton, pow_one]
      omega
    · rw [natChars, if_neg h10, foldDigits_append, ih (n / 10) (by omega)]
      have h1 : ∀ b : Nat, foldDigits b [digitChar (n % 10)]
          = b * 10 + ((digitChar (n % 10)).toNat - 48) := fun b => rfl
      rw [h1, toNat_digitChar (n % 10) (by omega), List.length_append,
        List.length_singleton, pow_succ]
      have hdm : n / 10 * 10 + n % 10 = n := by omega
      have h48 : 48 + n % 10 - 48 = n % 10 := by omega
      rw [h48]
      have hexp : (a * (10 ^ (natChars fuel (n / 10)).length * 10) + n)
          = (a * 10 ^ (natChars fuel (n / 10)).length + n / 10) * 10 + n % 10 := by
        have : a * (10 ^ (natChars fuel (n / 10)).length * 10)
            = (a * 10 ^ (natChars fuel (n / 10)).length) * 10 := by ring
        omega
      omega

theorem natChars_ne_zeroChar (fuel n : Nat) (h : n < fuel) (hn : n ≠ 0) :
    ∀ d tl, natChars fuel n = d :: tl → d ≠ '0' := by
  intro d tl heq hd0
  obtain ⟨d', tl', heq', hd', hz'⟩ := natChars_head fuel n h
  rw [heq'] at heq
  injection heq with h1 h2
  exact hz' hn (digitChar_inj_zero d' hd' (h1.trans hd0))

theorem parseNat_natChars (fuel n : Nat) (h : n < fuel) (rest : List Char)
    (hr : noDigitHead rest = true) :
    parseNatChars (natChars fuel n ++ rest) = some (n, rest) := by
  obtain ⟨d, tl, heq, hd, hz⟩ := natChars_head fuel n h
  by_cases hn0 : n = 0
  · subst hn0
    cases fuel with
    | zero => omega
    | succ fuel =>
      have h0 : natChars (fuel + 1) 0 = [digitChar 0] := by rw [natChars]; norm_num
      have hdc : digitChar 0 = '0' := by decide
      rw [h0, hdc]
      rw [show ( [ '0'] ++ rest : List Char) = '0' :: rest from rfl]
      rw [parseNatChars, if_pos rfl]
  · rw [heq]
    have hne0 : digitChar d ≠ '0' :=
      natChars_ne_zeroChar fuel n h hn0 (digitChar d) tl heq
    have hdig : isDigitB (digitChar d) = true := isDigitB_digitChar d hd
    have htl : ∀ c ∈ tl, isDigitB c = true := by
      intro c hc
      exact natChars_all_digit fuel n h c (by rw [heq]; simp [hc])
    rw [show ((digitChar d :: tl) ++ rest : List Char) = digitChar d :: (tl ++ rest) from rfl]
    rw [parseNatChars, if_neg hne0, if_pos hdig]
    rw [takeWhile_all_append isDigitB tl rest htl, takeWhile_noDigitHead rest hr,
      dropWhile_all_append isDigitB tl rest htl, dropWhile_noDigitHead rest hr,
      List.append_nil]
    have hfold : foldDigits ((digitChar d).toNat - 48) tl = n := by
      have h0 : foldDigits 0 (natChars fuel n) = 0 * 10 ^ (natChars fuel n).length + n :=
        foldDigits_natChars fuel n h 0
      rw [heq] at h0
      have h1 : foldDigits 0 (digitChar d :: tl)
          = foldDigits (0 * 10 + ((digitChar d).toNat - 48)) tl := rfl
      rw [h1] at h0
      have h2 : 0 * 10 + ((digitChar d).toNat - 48) = (digitChar d).toNat - 48 := by omega
      rw [h2] at h0
      omega
    rw [hfold]

theorem natChars_head_not_dash (fuel n : Nat) (h : n < fuel) :
    ∀ d tl, natChars fuel n = d :: tl → d ≠ '-' := by
  intro d tl heq hdd
  have : isDigitB d = true := natChars_all_digit fuel n h d (by rw [heq]; simp)
  rw [hdd] at this
  exact absurd this (by decide)

theorem parseNum_intChars (i : Int) (rest : List Char) (hr : noDigitHead rest = true) :
    parseNumChars (intChars i ++ rest) = some (i, rest) := by
  by_cases hneg : i < 0
  · rw [intChars, if_pos hneg]
    have hm : (0 : Nat) < i.natAbs := by omega
    rw [show (( '-' :: natChars (i.natAbs + 1) i.natAbs) ++ rest : List Char)
        = '-' :: (natChars (i.natAbs + 1) i.natAbs ++ rest) from rfl]
    rw [parseNumChars, if_pos rfl,
      parseNat_natChars (i.natAbs + 1) i.natAbs (by omega) rest hr]
    have hni : -((i.natAbs : Nat) : Int) = i := by omega
    exact congrArg (fun z : Int => some (z, rest)) hni
  · rw [intChars, if_neg hneg]
    obtain ⟨d, tl, heq, hd, hz⟩ := natChars_head (i.toNat + 1) i.toNat (by omega)
    rw [heq]
    have hdash : digitChar d ≠ '-' :=
      natChars_head_not_dash (i.toNat + 1) i.toNat (by omega) (digitChar d) tl heq
    rw [show ((digitChar d :: tl) ++ rest : List Char) = digitChar d :: (tl ++ rest) from rfl]
    rw [parseNumChars, if_neg hdash]
    rw [show (digitChar d :: (tl ++ rest) : List Char) = (digitChar d :: tl) ++ rest from rfl]
    rw [← heq, parseNat_natChars (i.toNat + 1) i.toNat (by omega) rest hr]
    have hni : ((i.toNat : Nat) : Int) = i := by omega
    exact congrArg (fun z : Int => some (z, rest)) hni

theorem toNat_hexDigitChar_lo (n : Nat) (h : n < 10) : (hexDigitChar n).toNat = 48 + n := by
  rw [hexDigitChar, if_pos h]
  exact toNat_ofNat_of_lt (48 + n) (by omega)

theorem toNat_hexDigitChar_hi (n : Nat) (h10 : ¬ n < 10) (h : n < 16) :
    (hexDigitChar n).toNat = 87 + n := by
  rw [hexDigitChar, if_neg h10]
  exact toNat_ofNat_of_lt (87 + n) (by omega)

theorem hexVal_hexDigitChar (n : Nat) (h : n < 16) : hexVal (hexDigitChar n) = some n := by
  by_cases h10 : n < 10
  · have ht := toNat_hexDigitChar_lo n h10
    rw [hexVal, if_pos (by omega)]
    exact congrArg some (by omega)
  · have ht := toNat_hexDigitChar_hi n h10 h
    rw [hexVal, if_neg (by omega), if_pos (by omega)]
    exact congrArg some (by omega)

theorem parseStringBody_escStr (s : List Char) :
    ∀ rest, parseStringBody (escStr s ++ rest) = some (s, rest) := by
  induction s with
  | nil =>
    intro rest
    rw [show escStr [] ++ rest = '"' :: rest from rfl]
    rw [parseStringBody.eq_def]
    simp
  | cons c cs ih =>
    intro rest
    rw [show escStr (c :: cs) = escChar c ++ escStr cs from rfl, List.append_assoc]
    rw [escChar]
    split_ifs with h1 h2 h3 h4 h5 h6 h7 h8
    · subst h1
      simp only [List.cons_append, List.nil_append]
      rw [parseStringBody.eq_def]
      simp [escUn, ih]
    · subst h2
      simp only [List.cons_append, List.nil_append]
      rw [parseStringBody.eq_def]
      simp [escUn, ih]
    · subst h3
      simp only [List.cons_append, List.nil_append]
      rw [parseStringBody.eq_def]
      simp [escUn, ih]
    · subst h4
      simp only [List.cons_append, List.nil_append]
      rw [parseStringBody.eq_def]
      simp [escUn, ih]
    · subst h5
      simp only [List.cons_append, List.nil_append]
      rw [parseStringBody.eq_def]
      simp [escUn, ih]
    · subst h6
      simp only [List.cons_append, List.nil_append]
      rw [parseStringBody.eq_def]
      simp [escUn, ih]
    · subst h7
      simp only [List.cons_append, List.nil_append]
      rw [parseStringBody.eq_def]
      simp [escUn, ih]
    · have hv0 : hexVal '0' = some 0 := by decide
      have hv1 : hexVal (hexDigitChar (c.toNat / 16)) = some (c.toNat / 16) :=
        hexVal_hexDigitChar _ (by omega)
      have hv2 : hexVal (hexDigitChar (c.toNat % 16)) = some (c.toNat % 16) :=
        hexVal_hexDigitChar _ (by omega)
      simp only [List.cons_append, List.nil_append]
      rw [parseStringBody.eq_def]
      simp [hv0, hv1, hv2, ih]
      rw [show c.toNat / 16 * 16 + c.toNat % 16 = c.toNat from by omega, Char.ofNat_toNat]
    · rw [show (([c] : List Char) ++ (escStr cs ++ rest)) = c :: (escStr cs ++ rest) from rfl]
      rw [parseStringBody.eq_def]
      simp [ih, h1, h2, h8]

theorem char_ne_of_toNat_ne (a b : Char) (h : a.toNat ≠ b.toNat) : a ≠ b :=
  fun he => h (he ▸ rfl)

theorem char_eq_of_toNat_eq (a b : Char) (h : a.toNat = b.toNat) : a = b := by
  apply Char.eq_of_val_eq
  exact UInt32.toNat.inj h

/-- Every property of a decimal digit character needed by the scanner
dispatch: it is not whitespace and not any structural character. -/
theorem isDigitB_facts (c : Char) (h : isDigitB c = true) :
    isJsonWs c = false ∧ c ≠ 'n' ∧ c ≠ 't' ∧ c ≠ 'f' ∧ c ≠ '"' ∧ c ≠ '[' ∧
    c ≠ '\x7b' ∧ c ≠ ']' ∧ c ≠ ',' ∧ c ≠ '\x7d' ∧ c ≠ '-' := by
  simp only [isDigitB, Bool.and_eq_true, decide_eq_true_eq] at h
  refine ⟨?_, ?_, ?_, ?_, ?_, ?_, ?_, ?_, ?_, ?_, ?_⟩
  · simp only [isJsonWs, Bool.or_eq_false_iff, decide_eq_false_iff_not]
    omega
  · exact char_ne_of_toNat_ne c 'n' (by
      have h0 : ( 'n' : Char).toNat = 110 := by decide
      omega)
  · exact char_ne_of_toNat_ne c 't' (by
      have h0 : ( 't' : Char).toNat = 116 := by decide
      omega)
  · exact char_ne_of_toNat_ne c 'f' (by
      have h0 : ( 'f' : Char).toNat = 102 := by decide
      omega)
  · exact char_ne_of_toNat_ne c '"' (by
      have h0 : ( '"' : Char).toNat = 34 := by decide
      omega)
  · exact char_ne_of_toNat_ne c '[' (by
      have h0 : ( '[' : Char).toNat = 91 := by decide
      omega)
  · exact char_ne_of_toNat_ne c '\x7b'
      (by
      have h0 : ( '\x7b' : Char).toNat = 123 := by decide
      omega)
  · exact char_ne_of_toNat_ne c ']' (by
      have h0 : ( ']' : Char).toNat = 93 := by decide
      omega)
  · exact char_ne_of_toNat_ne c ',' (by
      have h0 : ( ',' : Char).toNat = 44 := by decide
      omega)
  · exact char_ne_of_toNat_ne c '\x7d'
      (by
      have h0 : ( '\x7d' : Char).toNat = 125 := by decide
      omega)
  · exact char_ne_of_toNat_ne c '-' (by
      have h0 : ( '-' : Char).toNat = 45 := by decide
      omega)

/-- Head decomposition of a printed integer: the first character is a
minus sign or a digit, and in either case it is not whitespace and not a
structural character. -/
theorem intChars_head (i : Int) :
    ∃ c0 tl, intChars i = c0 :: tl ∧ isJsonWs c0 = false ∧ c0 ≠ 'n' ∧ c0 ≠ 't' ∧
      c0 ≠ 'f' ∧ c0 ≠ '"' ∧ c0 ≠ '[' ∧ c0 ≠ '\x7b' ∧ c0 ≠ ']' ∧ c0 ≠ ',' ∧
      c0 ≠ '\x7d' := by
  by_cases hneg : i < 0
  · refine ⟨ '-', natChars (i.natAbs + 1) i.natAbs, ?_, ?_, ?_, ?_, ?_, ?_, ?_, ?_, ?_,
      ?_, ?_⟩
    · rw [intChars, if_pos hneg]
    all_goals decide
  · obtain ⟨d, tl, heq, hd, hz⟩ := natChars_head (i.toNat + 1) i.toNat (by omega)
    have hdig : isDigitB (digitChar d) = true := isDigitB_digitChar d hd
    obtain ⟨w, n1, n2, n3, n4, n5, n6, n7, n8, n9, n10⟩ := isDigitB_facts _ hdig
    refine ⟨digitChar d, tl, ?_, w, n1, n2, n3, n4, n5, n6, n7, n8, n9⟩
    rw [intChars, if_neg hneg, heq]

/-- Head decomposition of any printed JSON value: nonempty, the head is
not whitespace, not a closing bracket, not a closing brace and not a
comma. -/
theorem dumpVal_head (j : Json) :
    ∃ c tl, dumpVal j = c :: tl ∧ isJsonWs c = false ∧ c ≠ ']' ∧ c ≠ '\x7d' ∧
      c ≠ ',' := by
  cases j with
  | null => exact ⟨ 'n', _, rfl, by decide, by decide, by decide, by decide⟩
  | bool b =>
    cases b with
    | true => exact ⟨ 't', _, rfl, by decide, by decide, by decide, by decide⟩
    | false => exact ⟨ 'f', _, rfl, by decide, by decide, by decide, by decide⟩
  | int n =>
    obtain ⟨c0, tl, heq, w, _, _, _, _, _, _, n7, n8, n9⟩ := intChars_head n
    exact ⟨c0, tl, heq, w, n7, n9, n8⟩
  | str s => exact ⟨ '"', _, rfl, by decide, by decide, by decide, by decide⟩
  | arr xs =>
    cases xs with
    | nil => exact ⟨ '[', _, rfl, by decide, by decide, by decide, by decide⟩
    | cons x xs => exact ⟨ '[', _, rfl, by decide, by decide, by decide, by decide⟩
  | obj kvs =>
    cases kvs with
    | nil => exact ⟨ '\x7b', _, rfl, by decide, by decide, by decide, by decide⟩
    | cons kv kvs => exact ⟨ '\x7b', _, rfl, by decide, by decide, by decide, by decide⟩

theorem dumpVal_length_pos (j : Json) : 1 ≤ (dumpVal j).length := by
  obtain ⟨c, tl, heq, -, -, -, -⟩ := dumpVal_head j
  rw [heq]
  simp

theorem dumpItemsTail_length_pos (xs : List Json) : 1 ≤ (dumpItemsTail xs).length := by
  cases xs with
  | nil => simp [dumpItemsTail]
  | cons x xs => simp [dumpItemsTail]

theorem dumpMembersTail_length_pos (kvs : List (String × Json)) :
    1 ≤ (dumpMembersTail kvs).length := by
  cases kvs with
  | nil => simp [dumpMembersTail]
  | cons kv kvs => simp [dumpMembersTail]

theorem dumpMember_length_pos (kv : String × Json) : 1 ≤ (dumpMember kv).length := by
  obtain ⟨k, v⟩ := kv
  simp [dumpMember]

theorem escStr_length_pos (s : List Char) : 1 ≤ (escStr s).length := by
  cases s with
  | nil => simp [escStr]
  | cons c cs =>
    rw [escStr]
    have h : 1 ≤ (escStr cs).length := escStr_length_pos cs
    simp only [List.length_append]
    omega

theorem noDigitHead_dumpItemsTail (xs : List Json) (rest : List Char) :
    noDigitHead (dumpItemsTail xs ++ rest) = true := by
  cases xs with
  | nil => rfl
  | cons x xs => rfl

theorem noDigitHead_dumpMembersTail (kvs : List (String × Json)) (rest : List Char) :
    noDigitHead (dumpMembersTail kvs ++ rest) = true := by
  cases kvs with
  | nil => rfl
  | cons kv kvs => rfl

theorem parseValue_ws_cons (f : Nat) (c : Char) (hc : isJsonWs c = true) (X : List Char) :
    parseValue (f + 1) (c :: X) = parseValue (f + 1) X := by
  have h : (c :: X).dropWhile isJsonWs = X.dropWhile isJsonWs := by
    simp [List.dropWhile_cons, hc]
  rw [parseValue.eq_def]
  conv_rhs => rw [parseValue.eq_def]
  simp only [h]

theorem parseMember_ws_cons (f : Nat) (c : Char) (hc : isJsonWs c = true) (X : List Char) :
    parseMember (f + 1) (c :: X) = parseMember (f + 1) X := by
  have h : (c :: X).dropWhile isJsonWs = X.dropWhile isJsonWs := by
    simp [List.dropWhile_cons, hc]
  rw [parseMember.eq_def]
  conv_rhs => rw [parseMember.eq_def]
  simp only [h]

theorem parseValue_int (f : Nat) (i : Int) (rest : List Char)
    (hrest : noDigitHead rest = true) :
    parseValue (f + 1) (intChars i ++ rest) = some (.int i, rest) := by
  obtain ⟨c0, tl, heq, hw, hn1, hn2, hn3, hn4, hn5, hn6, _, _, _⟩ := intChars_head i
  rw [heq, List.cons_append, parseValue.eq_def]
  simp only [List.dropWhile_cons, hw, Bool.false_eq_true, if_false,
    hn1, hn2, hn3, hn4, hn5, hn6, ite_false]
  rw [show (c0 :: (tl ++ rest) : List Char) = (c0 :: tl) ++ rest from rfl, ← heq,
    parseNum_intChars i rest hrest]

/-- Scanning an object body that begins with a printed member defers to
the member and member-tail scanners (pure definitional unfolding: a
printed member begins with a quote). -/
theorem parseObjRest_member (g : Nat) (kv : String × Json) (Y : List Char) :
    parseObjRest (g + 1) (dumpMember kv ++ Y)
      = (match parseMember g (dumpMember kv ++ Y) with
         | some (kv', r) =>
           match parseObjTail g r with
           | some (kvs, r2) => some (.obj (kv' :: kvs), r2)
           | none => none
         | none => none) := by
  obtain ⟨k, v⟩ := kv
  rfl

/-- Core round-trip property of the scanner against the printer, proved
by strong induction on the scanner's fuel: any printed value (or item
tail, member tail, member) followed by a continuation that does not start
with a digit is scanned back exactly, for every sufficient fuel. -/
theorem parse_dump_all (f : Nat) :
    (∀ j rest, (dumpVal j).length < f → noDigitHead rest = true →
      parseValue f (dumpVal j ++ rest) = some (j, rest)) ∧
    (∀ xs rest, (dumpItemsTail xs).length < f → noDigitHead rest = true →
      parseArrayTail f (dumpItemsTail xs ++ rest) = some (xs, rest)) ∧
    (∀ kvs rest, (dumpMembersTail kvs).length < f → noDigitHead rest = true →
      parseObjTail f (dumpMembersTail kvs ++ rest) = some (kvs, rest)) ∧
    (∀ kv rest, (dumpMember kv).length < f → noDigitHead rest = true →
      parseMember f (dumpMember kv ++ rest) = some (kv, rest)) := by
  induction f using Nat.strong_induction_on with
  | _ f IH =>
  refine ⟨?_, ?_, ?_, ?_⟩
  · intro j rest hlen hrest
    cases f with
    | zero => exact absurd hlen (by omega)
    | succ f' =>
    cases j with
    | null => rfl
    | bool b =>
      cases b with
      | true => rfl
      | false => rfl
    | int n => exact parseValue_int f' n rest hrest
    | str s =>
      have hred : parseValue (f' + 1) (dumpVal (.str s) ++ rest)
          = (match parseStringBody (escStr s.data ++ rest) with
             | some (sd, r) => some (.str (String.mk sd), r)
             | none => none) := rfl
      rw [hred, parseStringBody_escStr s.data rest]
    | arr xs =>
      cases xs with
      | nil =>
        have hf : 1 ≤ f' := by
          rw [show dumpVal (.arr []) = [ '[', ']'] from rfl] at hlen
          simp at hlen
          omega
        obtain ⟨g, rfl⟩ : ∃ g, f' = g + 1 := ⟨f' - 1, by omega⟩
        rfl
      | cons x xs =>
        have hlen2 : 1 + ((dumpVal x).length + (dumpItemsTail xs).length) < f' + 1 := by
          rw [show dumpVal (.arr (x :: xs)) = '[' :: (dumpVal x ++ dumpItemsTail xs)
            from rfl] at hlen
          simp only [List.length_cons, List.length_append] at hlen
          omega
        have hlx := dumpVal_length_pos x
        have hlt := dumpItemsTail_length_pos xs
        obtain ⟨g, rfl⟩ : ∃ g, f' = g + 1 := ⟨f' - 1, by omega⟩
        rw [show dumpVal (.arr (x :: xs)) = '[' :: (dumpVal x ++ dumpItemsTail xs)
          from rfl, List.cons_append,
          show parseValue (g + 1 + 1) ( '[' :: ((dumpVal x ++ dumpItemsTail xs) ++ rest))
            = parseArrayRest (g + 1) ((dumpVal x ++ dumpItemsTail xs) ++ rest) from rfl]
        obtain ⟨c0, tl, heq, hw, hbr, hob, hcm⟩ := dumpVal_head x
        rw [parseArrayRest.eq_def]
        simp only [List.append_assoc, heq, List.cons_append, List.dropWhile_cons, hw,
          Bool.false_eq_true, if_false, hbr, ite_false]
        rw [show (c0 :: (tl ++ (dumpItemsTail xs ++ rest)) : List Char)
            = (c0 :: tl) ++ (dumpItemsTail xs ++ rest) from rfl, ← heq]
        have hx := (IH g (by omega)).1 x (dumpItemsTail xs ++ rest)
          (by omega) (noDigitHead_dumpItemsTail xs rest)
        have ht := (IH g (by omega)).2.1 xs rest (by omega) hrest
        simp only [hx, ht]
    | obj kvs =>
      cases kvs with
      | nil =>
        have hf : 1 ≤ f' := by
          rw [show dumpVal (.obj []) = [ '\x7b', '\x7d'] from rfl] at hlen
          simp at hlen
          omega
        obtain ⟨g, rfl⟩ : ∃ g, f' = g + 1 := ⟨f' - 1, by omega⟩
        rfl
      | cons kv kvs =>
        have hlen2 : 1 + ((dumpMember kv).length + (dumpMembersTail kvs).length)
            < f' + 1 := by
          rw [show dumpVal (.obj (kv :: kvs))
            = '\x7b' :: (dumpMember kv ++ dumpMembersTail kvs) from rfl] at hlen
          simp only [List.length_cons, List.length_append] at hlen
          omega
        have hlm := dumpMember_length_pos kv
        have hlt := dumpMembersTail_length_pos kvs
        obtain ⟨g, rfl⟩ : ∃ g, f' = g + 1 := ⟨f' - 1, by omega⟩
        rw [show dumpVal (.obj (kv :: kvs))
            = '\x7b' :: (dumpMember kv ++ dumpMembersTail kvs) from rfl, List.cons_append,
          show parseValue (g + 1 + 1)
              ( '\x7b' :: ((dumpMember kv ++ dumpMembersTail kvs) ++ rest))
            = parseObjRest (g + 1) ((dumpMember kv ++ dumpMembersTail kvs) ++ rest)
            from rfl, List.append_assoc,
          parseObjRest_member g kv (dumpMembersTail kvs ++ rest)]
        have hm := (IH g (by omega)).2.2.2 kv (dumpMembersTail kvs ++ rest)
          (by omega) (noDigitHead_dumpMembersTail kvs rest)
        have ht := (IH g (by omega)).2.2.1 kvs rest (by omega) hrest
        simp only [hm, ht]
  · intro xs rest hlen hrest
    cases f with
    | zero => exact absurd hlen (by omega)
    | succ f' =>
    cases xs with
    | nil => rfl
    | cons x xs =>
      have hlen2 : 2 + ((dumpVal x).length + (dumpItemsTail xs).length) < f' + 1 := by
        rw [show dumpItemsTail (x :: xs) = ',' :: ' ' :: (dumpVal x ++ dumpItemsTail xs)
          from rfl] at hlen
        simp only [List.length_cons, List.length_append] at hlen
        omega
      have hlx := dumpVal_length_pos x
      have hlt := dumpItemsTail_length_pos xs
      obtain ⟨g, rfl⟩ : ∃ g, f' = g + 1 := ⟨f' - 1, by omega⟩
      rw [show dumpItemsTail (x :: xs) = ',' :: ' ' :: (dumpVal x ++ dumpItemsTail xs)
        from rfl]
      simp only [List.cons_append]
      rw [parseArrayTail.eq_def]
      simp only [List.dropWhile_cons, show isJsonWs ',' = false from rfl,
        Bool.false_eq_true, if_false, show (( ',' : Char) = ']') = False from by simp,
        ite_false, ite_true]
      rw [parseValue_ws_cons g ' ' rfl ((dumpVal x ++ dumpItemsTail xs) ++ rest)]
      rw [List.append_assoc]
      have hx := (IH (g + 1) (by omega)).1 x (dumpItemsTail xs ++ rest)
        (by omega) (noDigitHead_dumpItemsTail xs rest)
      have ht := (IH (g + 1) (by omega)).2.1 xs rest (by omega) hrest
      simp only [hx, ht]
  · intro kvs rest hlen hrest
    cases f with
    | zero => exact absurd hlen (by omega)
    | succ f' =>
    cases kvs with
    | nil => rfl
    | cons kv kvs =>
      have hlen2 : 2 + ((dumpMember kv).length + (dumpMembersTail kvs).length)
          < f' + 1 := by
        rw [show dumpMembersTail (kv :: kvs)
          = ',' :: ' ' :: (dumpMember kv ++ dumpMembersTail kvs) from rfl] at hlen
        simp only [List.length_cons, List.length_append] at hlen
        omega
      have hlm := dumpMember_length_pos kv
      have hlt := dumpMembersTail_length_pos kvs
      obtain ⟨g, rfl⟩ : ∃ g, f' = g + 1 := ⟨f' - 1, by omega⟩
      rw [show dumpMembersTail (kv :: kvs)
        = ',' :: ' ' :: (dumpMember kv ++ dumpMembersTail kvs) from rfl]
      simp only [List.cons_append]
      rw [parseObjTail.eq_def]
      simp only [List.dropWhile_cons, show isJsonWs ',' = false from rfl,
        Bool.false_eq_true, if_false,
        show (( ',' : Char) = '\x7d') = False from by simp, ite_false, ite_true]
      rw [parseMember_ws_cons g ' ' rfl ((dumpMember kv ++ dumpMembersTail kvs) ++ rest)]
      rw [List.append_assoc]
      have hm := (IH (g + 1) (by omega)).2.2.2 kv (dumpMembersTail kvs ++ rest)
        (by omega) (noDigitHead_dumpMembersTail kvs rest)
      have ht := (IH (g + 1) (by omega)).2.2.1 kvs rest (by omega) hrest
      simp only [hm, ht]
  · intro kv rest hlen hrest
    cases f with
    | zero => exact absurd hlen (by omega)
    | succ f' =>
    obtain ⟨k, v⟩ := kv
    have hlen2 : 3 + ((escStr k.data).length + (dumpVal v).length) < f' + 1 := by
      rw [show dumpMember (k, v) = '"' :: (escStr k.data ++ ':' :: ' ' :: dumpVal v)
        from rfl] at hlen
      simp at hlen
      omega
    have hle := escStr_length_pos k.data
    have hlv := dumpVal_length_pos v
    obtain ⟨g, rfl⟩ : ∃ g, f' = g + 1 := ⟨f' - 1, by omega⟩
    rw [show dumpMember (k, v) = '"' :: (escStr k.data ++ ':' :: ' ' :: dumpVal v)
      from rfl, List.cons_append]
    rw [parseMember.eq_def]
    simp only [List.dropWhile_cons, show isJsonWs '"' = false from rfl,
      Bool.false_eq_true, if_false, ite_true]
    rw [List.append_assoc]
    rw [show ((( ':' :: ' ' :: dumpVal v : List Char)) ++ rest)
        = ':' :: ' ' :: (dumpVal v ++ rest) from rfl]
    rw [parseStringBody_escStr k.data ( ':' :: ' ' :: (dumpVal v ++ rest))]
    simp only [List.dropWhile_cons, show isJsonWs ':' = false from rfl,
      Bool.false_eq_true, if_false]
    rw [parseValue_ws_cons g ' ' rfl (dumpVal v ++ rest)]
    have hv := (IH (g + 1) (by omega)).1 v rest (by omega) hrest
    simp only [hv]

/-- Round trip of the JSON text codec: `json.loads` inverts `json.dumps`
on every value of the modelled fragment. -/
theorem loads_dumps (j : Json) : loads (dumps j) = .ok j := by
  have h := (parse_dump_all ((dumpVal j).length + 1)).1 j [] (by omega) rfl
  rw [show dumpVal j ++ [] = dumpVal j from by simp] at h
  rw [loads, show (dumps j).data = dumpVal j from rfl, h]
  rfl

/-- Python whitespace stripped by `str.strip()` (ASCII fragment: space,
tab, newline, carriage return, vertical tab, form feed). -/
def isPyWs (c : Char) : Bool :=
  c.toNat = 32 || c.toNat = 9 || c.toNat = 10 || c.toNat = 13 ||
  c.toNat = 11 || c.toNat = 12

/-- Python `str.strip()` on the ASCII fragment: drop leading and trailing
whitespace. -/
def pyStrip (s : String) : String :=
  String.mk (((s.data.dropWhile isPyWs).reverse.dropWhile isPyWs).reverse)

/-- ASCII fragment of Python `str.lower()`: map A-Z to a-z. -/
def asciiLower (c : Char) : Char :=
  if 65 ≤ c.toNat ∧ c.toNat ≤ 90 then Char.ofNat (c.toNat + 32) else c

/-- Python `str.lower()` on the ASCII fragment. -/
def pyLower (s : String) : String := String.mk (s.data.map asciiLower)

/-- Character class of Python `str.isdigit()` on the modelled fragment:
the ASCII decimal digits, plus the Latin-1 superscript digits
¹ (U+00B9), ² (U+00B2) and ³ (U+00B3) — characters with Unicode
numeric type Digit but not Decimal, for which `str.isdigit` holds but
`int()` raises. -/
def pyDigitChar (c : Char) : Bool :=
  (48 ≤ c.toNat && c.toNat ≤ 57) || c.toNat = 178 || c.toNat = 179 || c.toNat = 185

/-- Python `str.isdigit()` on the modelled fragment: nonempty and every
character an `isdigit` character. -/
def pyIsDigit (s : String) : Bool := !s.data.isEmpty && s.data.all pyDigitChar

/-- Python `int(s)` on the selector's stripped inputs: succeeds exactly
on a nonempty string of decimal digits, returning its value, and raises
`ValueError` otherwise — in particular on `isdigit`-true strings
containing a superscript digit (signs, underscores and non-ASCII
decimal digits are outside the modelled fragment). -/
def pyInt (s : String) : Except PyExc Nat :=
  if !s.data.isEmpty && s.data.all isDigitB then .ok (foldDigits 0 s.data)
  else .error .valueError

/-- One row of the `sessions` table:
`sessions(id TEXT PRIMARY KEY, created_at TEXT NOT NULL, data TEXT NOT NULL)`. -/
structure Row where
  id : String
  created_at : String
  data : String
deriving DecidableEq

/-- The `sessions` table, in insertion order. -/
abbrev Store := List Row

/-- One element of the list produced by `SessionStore.list_sessions`:
`{"id": ..., "created_at": ..., "turns": ...}`. -/
structure Summary where
  id : String
  created_at : String
  turns : Nat
deriving DecidableEq

/-- Byte-order comparison of strings (SQLite's default BINARY collation
on TEXT, which is what `ORDER BY created_at DESC` uses): lexicographic on
code points. -/
def charsLe : List Char → List Char → Bool
  | [], _ => true
  | _ :: _, [] => false
  | a :: as, b :: bs =>
    if a.toNat < b.toNat then true
    else if b.toNat < a.toNat then false
    else charsLe as bs

def strLeB (s t : String) : Bool := charsLe s.data t.data

/-- Insert a row into a list sorted by `created_at` descending, keeping
it sorted (model of the ordering produced by
`ORDER BY created_at DESC`). -/
def insertDesc (r : Row) : List Row → List Row
  | [] => [r]
  | x :: xs => if strLeB x.created_at r.created_at then r :: x :: xs else x :: insertDesc r xs

/-- The rows sorted by `created_at` descending. -/
def sortByCreatedDesc (st : Store) : List Row := List.foldr insertDesc [] st

/-- Modelled from the spec: `to_jsonable_python` of the external
`pydantic_core` library converts the in-memory `list[ModelMessage]` to
its canonical jsonable form; messages are opaque to this core and are
kept in that form, so the conversion is the embedding of the list into a
JSON array (the spec's lossless-serialization contract for Messages). -/
def to_jsonable_python (msgs : List Json) : Json := Json.arr msgs

/-- Modelled from the spec: `ModelMessagesTypeAdapter.validate_python` of
the external `pydantic_ai` library validates decoded jsonable data back
into `list[ModelMessage]`; on the canonical form produced by
`to_jsonable_python` it is the inverse embedding, and it raises a
validation error when the data is not a list of messages. -/
def validate_python : Json → Except PyExc (List Json)
  | .arr xs => .ok xs
  | _ => .error .validationError

/-- `SessionStore.create_session`: insert `(sid, created_at, "[]")`;
the `id TEXT PRIMARY KEY` constraint makes the INSERT raise an
IntegrityError when the id already exists.  The caller supplies the
freshly drawn `uuid4` string and the timestamp. -/
def create_session (sid created_at : String) (st : Store) : Except PyExc (Store × String) :=
  if st.any (fun r => r.id = sid) then .error .integrityError
  else .ok (st ++ [⟨sid, created_at, "[]"⟩], sid)

/-- The `turns` count computed per row by `SessionStore.list_sessions`:
`len(json.loads(data))` with every exception degraded to `0`.  Python's
`len` is defined on lists, strings and dicts and raises `TypeError`
otherwise (also caught). -/
def turnCount (data : String) : Nat :=
  match loads data with
  | .error _ => 0
  | .ok (.arr xs) => xs.length
  | .ok (.str s) => s.length
  | .ok (.obj kvs) => kvs.length
  | .ok _ => 0

/-- `SessionStore.list_sessions`: all rows ordered by `created_at`
descending, each summarised as id, created_at and turn count. -/
def list_sessions (st : Store) : List Summary :=
  (sortByCreatedDesc st).map (fun r => ⟨r.id, r.created_at, turnCount r.data⟩)

/-- The decoding used by `load_messages`: `json.loads` then
`ModelMessagesTypeAdapter.validate_python`. -/
def decodeTranscript (data : String) : Except PyExc (List Json) :=
  match loads data with
  | .error e => .error e
  | .ok j => validate_python j

/-- `SessionStore.load_messages`: `SELECT data FROM sessions WHERE id = ?`
then decode; returns `[]` when no row matches. -/
def load_messages (session_id : String) (st : Store) : Except PyExc (List Json) :=
  match st.find? (fun r => r.id = session_id) with
  | none => .ok []
  | some r => decodeTranscript r.data

/-- The stored payload written by `save_messages`:
`json.dumps(to_jsonable_python(messages), ensure_ascii=False)`. -/
def encodeTranscript (messages : List Json) : String :=
  dumps (to_jsonable_python messages)

/-- `SessionStore.save_messages`: `UPDATE sessions SET data = ? WHERE
id = ?` — replaces the payload of every row with the given id (a no-op
when the id is absent). -/
def save_messages (session_id : String) (messages : List Json) (st : Store) : Store :=
  st.map (fun r =>
    if r.id = session_id then ⟨r.id, r.created_at, encodeTranscript messages⟩ else r)

/-- The fields of `BrowserAgent` that `_choose_session` resolves:
the selected session id, the in-memory history, and the (possibly
extended) store. -/
structure ChosenState where
  session_id : String
  history : List Json
  store : Store

/-- The prompt loop inside `BrowserAgent._choose_session` (the store
already listed as `sessions`): each input line is stripped; `n`/`N`
creates a fresh session; on an `isdigit`-true answer `int()` is
evaluated inside the guard and its `ValueError` (e.g. on a superscript
digit) propagates uncaught; an in-range number resumes the
corresponding listed session, loading its transcript; anything else
re-prompts.
`none` means the inputs ran out while still re-prompting.  `freshSid`
and `freshTs` are the uuid4 and timestamp that `create_session` would
draw; `history₀` is the in-memory history before selection (empty at
startup). -/
def chooseFrom (st : Store) (sessions : List Summary) (freshSid freshTs : String)
    (history₀ : List Json) : List String → Except PyExc (Option ChosenState)
  | [] => .ok none
  | c :: rest =>
    if pyLower (pyStrip c) = "n" then
      match create_session freshSid freshTs st with
      | .error e => .error e
      | .ok (st', sid) => .ok (some ⟨sid, history₀, st'⟩)
    else if pyIsDigit (pyStrip c) then
      match pyInt (pyStrip c) with
      | .error e => .error e
      | .ok k =>
        if 1 ≤ k ∧ k ≤ sessions.length then
          match load_messages (sessions.getD (k - 1) ⟨ "", "", 0⟩).id st with
          | .error e => .error e
          | .ok h => .ok (some ⟨(sessions.getD (k - 1) ⟨ "", "", 0⟩).id, h, st⟩)
        else chooseFrom st sessions freshSid freshTs history₀ rest
    else chooseFrom st sessions freshSid freshTs history₀ rest

/-- `BrowserAgent._choose_session`: when `list_sessions` is empty a new
session is created without prompting; otherwise the prompt loop runs on
the user's input lines. -/
def choose_session (st : Store) (freshSid freshTs : String) (history₀ : List Json)
    (inputs : List String) : Except PyExc (Option ChosenState) :=
  if (list_sessions st).isEmpty then
    match create_session freshSid freshTs st with
    | .error e => .error e
    | .ok (st', sid) => .ok (some ⟨sid, history₀, st'⟩)
  else chooseFrom st (list_sessions st) freshSid freshTs history₀ inputs

/-- One event delivered to the `input()` call of the conversation loop:
a line of text, or end-of-input (`EOFError` / `KeyboardInterrupt`). -/
inductive InEvent where
  | line (s : String)
  | eof

/-- The effect of one iteration of the `while True` loop in
`start_conversation`: the loop breaks normally, continues with updated
state, or an exception propagates out of it. -/
inductive TurnOutcome where
  | ended (printed : List String)
  | next (history : List Json) (store : Store) (printed : List String)
  | raised (e : PyExc) (history : List Json) (store : Store) (printed : List String)

/-- One iteration of the conversation loop in
`BrowserAgent.start_conversation`, translated line by line: read input
(EOF/interrupt prints and breaks), strip it, break on `exit`/`quit`
(case-insensitive), otherwise run the agent on the stripped command and
the current history, replace the history with the agent's full message
list, persist it, then print the reply.  There is no exception handler
in the loop body: a failure of the agent call or of the save propagates,
with the reply unprinted. -/
def processTurn (agentRun : String → List Json → Except PyExc (List Json × String))
    (saveFn : String → List Json → Store → Except PyExc Store)
    (session_id : String) (history : List Json) (store : Store) :
    InEvent → TurnOutcome
  | .eof => .ended [ "Exiting…"]
  | .line s =>
    if pyLower (pyStrip s) = "exit" ∨ pyLower (pyStrip s) = "quit" then
      .ended [ "Goodbye!"]
    else
      match agentRun (pyStrip s) history with
      | .error e => .raised e history store []
      | .ok (msgs, out) =>
        match saveFn session_id msgs store with
        | .error e => .raised e msgs store []
        | .ok store' => .next msgs store' [ "Agent: " ++ out]

/-- The save effect in a healthy environment: `save_messages` commits and
raises nothing. -/
def saveOk (session_id : String) (messages : List Json) (st : Store) :
    Except PyExc Store :=
  .ok (save_messages session_id messages st)

/-- The whole conversation loop over a list of input events: runs turn
after turn, stopping at `ended` (normal break), at `raised` (uncaught
exception terminates the loop and the process), or when inputs run out
(still awaiting input).  Returns final history, final store, everything
printed, and the escaped exception if any. -/
def runLoop (agentRun : String → List Json → Except PyExc (List Json × String))
    (saveFn : String → List Json → Store → Except PyExc Store)
    (session_id : String) :
    List Json → Store → List InEvent → List Json × Store × List String × Option PyExc
  | h, st, [] => (h, st, [], none)
  | h, st, ev :: evs =>
    match processTurn agentRun saveFn session_id h st ev with
    | .ended p => (h, st, p, none)
    | .next h' st' p =>
      let r := runLoop agentRun saveFn session_id h' st' evs
      (r.1, r.2.1, p ++ r.2.2.1, r.2.2.2)
    | .raised e h' st' p => (h', st', p, some e)

theorem decodeTranscript_encodeTranscript (t : List Json) :
    decodeTranscript (encodeTranscript t) = .ok t := by
  rw [decodeTranscript, encodeTranscript, to_jsonable_python, loads_dumps]
  rfl

theorem find?_save_messages (sid : String) (t : List Json) (st : Store)
    (h : ∃ r ∈ st, r.id = sid) :
    ∃ ca, (save_messages sid t st).find? (fun r => r.id = sid)
      = some ⟨sid, ca, encodeTranscript t⟩ := by
  induction st with
  | nil => simp at h
  | cons r st ih =>
    by_cases hr : r.id = sid
    · refine ⟨r.created_at, ?_⟩
      rw [save_messages, List.map_cons, if_pos hr]
      rw [List.find?_cons_of_pos _ (by simp [hr])]
      rw [hr]
    · obtain ⟨r', hr', hid⟩ := h
      rcases List.mem_cons.mp hr' with hr1 | hr1
      · exact absurd (hr1 ▸ hid) hr
      · obtain ⟨ca, hca⟩ := ih ⟨r', hr1, hid⟩
        refine ⟨ca, ?_⟩
        rw [save_messages, List.map_cons, if_neg hr]
        rw [List.find?_cons_of_neg _ (by simp [hr])]
        exact hca

/-- C1: round-trip persistence fidelity.  Decoding the encoding is the
identity on every transcript held by the Conversation Loop, and after
`save_messages(id, T)` on an id that exists in the store a subsequent
`load_messages(id)` returns exactly `T`. -/
theorem C1_roundtrip_save_load :
    (∀ t : List Json, decodeTranscript (encodeTranscript t) = .ok t) ∧
    (∀ (st : Store) (sid : String) (t : List Json),
      (∃ r ∈ st, r.id = sid) →
      load_messages sid (save_messages sid t st) = .ok t) := by
  refine ⟨decodeTranscript_encodeTranscript, ?_⟩
  intro st sid t h
  obtain ⟨ca, hca⟩ := find?_save_messages sid t st h
  rw [load_messages, hca]
  exact decodeTranscript_encodeTranscript t

/-- C1 witness: a concrete save/load round trip on a one-row store. -/
theorem C1_roundtrip_save_load_witness :
    load_messages "s1" (save_messages "s1" [ .str "hello", .int 2] [⟨ "s1", "t0", "[]"⟩])
      = .ok [ .str "hello", .int 2] :=
  C1_roundtrip_save_load.2 [⟨ "s1", "t0", "[]"⟩] "s1" [ .str "hello", .int 2]
    ⟨⟨ "s1", "t0", "[]"⟩, by simp, rfl⟩

/-- C6: missing-id tolerance: loading an id that matches no row returns
the empty transcript and raises nothing. -/
theorem C6_missing_id_tolerance :
    ∀ (st : Store) (sid : String), (∀ r ∈ st, r.id ≠ sid) →
      load_messages sid st = .ok [] := by
  intro st sid h
  rw [load_messages, List.find?_eq_none.mpr (by intro r hr; simp [h r hr])]

/-- C6 witness: loading a nonexistent id from a concrete store. -/
theorem C6_missing_id_tolerance_witness :
    load_messages "nope" [⟨ "s1", "t0", "[]"⟩, ⟨ "s2", "t1", "[1]"⟩] = .ok [] :=
  C6_missing_id_tolerance [⟨ "s1", "t0", "[]"⟩, ⟨ "s2", "t1", "[1]"⟩] "nope"
    (by
      intro r hr
      simp only [List.mem_cons, List.not_mem_nil, or_false] at hr
      rcases hr with rfl | rfl
      · decide
      · decide)

theorem charsLe_total (a : List Char) : ∀ b, charsLe a b = true ∨ charsLe b a = true := by
  induction a with
  | nil => intro b; left; rfl
  | cons x xs ih =>
    intro b
    cases b with
    | nil => right; rfl
    | cons y ys =>
      by_cases hxy : x.toNat < y.toNat
      · left; rw [charsLe, if_pos hxy]
      · by_cases hyx : y.toNat < x.toNat
        · right; rw [charsLe, if_pos hyx]
        · rcases ih ys with h | h
          · left; rw [charsLe, if_neg hxy, if_neg hyx]; exact h
          · right; rw [charsLe, if_neg hyx, if_neg hxy]; exact h

theorem charsLe_trans (a : List Char) :
    ∀ b c, charsLe a b = true → charsLe b c = true → charsLe a c = true := by
  induction a with
  | nil => intro b c _ _; rfl
  | cons x xs ih =>
    intro b c hab hbc
    cases b with
    | nil => exact absurd hab (by rw [charsLe]; simp)
    | cons y ys =>
      cases c with
      | nil => exact absurd hbc (by rw [charsLe]; simp)
      | cons z zs =>
        rw [charsLe] at hab hbc ⊢
        by_cases hxy : x.toNat < y.toNat
        · by_cases hyz : y.toNat < z.toNat
          · rw [if_pos (by omega)]
          · rw [if_neg hyz] at hbc
            by_cases hzy : z.toNat < y.toNat
            · rw [if_pos hzy] at hbc; exact absurd hbc (by simp)
            · rw [if_pos (show x.toNat < z.toNat from by omega)]
        · by_cases hyx : y.toNat < x.toNat
          · rw [if_neg hxy, if_pos hyx] at hab; exact absurd hab (by simp)
          · by_cases hyz : y.toNat < z.toNat
            · rw [if_pos (by omega)]
            · by_cases hzy : z.toNat < y.toNat
              · rw [if_neg hyz, if_pos hzy] at hbc; exact absurd hbc (by simp)
              · rw [if_neg (by omega), if_neg (by omega)]
                rw [if_neg hxy, if_neg hyx] at hab
                rw [if_neg hyz, if_neg hzy] at hbc
                exact ih ys zs hab hbc

theorem charsLe_antisymm (a : List Char) :
    ∀ b, charsLe a b = true → charsLe b a = true → a = b := by
  induction a with
  | nil =>
    intro b _ hba
    cases b with
    | nil => rfl
    | cons y ys => exact absurd hba (by rw [charsLe]; simp)
  | cons x xs ih =>
    intro b hab hba
    cases b with
    | nil => exact absurd hab (by rw [charsLe]; simp)
    | cons y ys =>
      rw [charsLe] at hab hba
      by_cases hxy : x.toNat < y.toNat
      · rw [if_neg (by omega), if_pos hxy] at hba
        exact absurd hba (by simp)
      · by_cases hyx : y.toNat < x.toNat
        · rw [if_neg hxy, if_pos hyx] at hab
          exact absurd hab (by simp)
        · rw [if_neg hxy, if_neg hyx] at hab
          rw [if_neg hyx, if_neg hxy] at hba
          have hx : x = y := char_eq_of_toNat_eq x y (by omega)
          rw [hx, ih ys hab hba]

theorem strLeB_total (s t : String) : strLeB s t = true ∨ strLeB t s = true :=
  charsLe_total s.data t.data

theorem strLeB_trans (s t u : String) (h1 : strLeB s t = true) (h2 : strLeB t u = true) :
    strLeB s u = true :=
  charsLe_trans s.data t.data u.data h1 h2

theorem strLeB_antisymm (s t : String) (h1 : strLeB s t = true)
    (h2 : strLeB t s = true) : s = t := by
  cases s with
  | mk a =>
    cases t with
    | mk b =>
      have := charsLe_antisymm a b h1 h2
      rw [this]

/-- The ordering that `ORDER BY created_at DESC` establishes between
adjacent rows of the listing. -/
def rowDescP (a b : Row) : Prop := strLeB b.created_at a.created_at = true

theorem insertDesc_perm (r : Row) (l : List Row) : (insertDesc r l).Perm (r :: l) := by
  induction l with
  | nil => exact List.Perm.refl _
  | cons x xs ih =>
    rw [insertDesc]
    by_cases h : strLeB x.created_at r.created_at = true
    · rw [if_pos h]
    · rw [if_neg h]
      exact (ih.cons x).trans (List.Perm.swap r x xs)

theorem sortByCreatedDesc_perm (st : Store) : (sortByCreatedDesc st).Perm st := by
  induction st with
  | nil => exact List.Perm.refl _
  | cons r st ih =>
    have h1 : sortByCreatedDesc (r :: st) = insertDesc r (sortByCreatedDesc st) := rfl
    rw [h1]
    exact (insertDesc_perm r (sortByCreatedDesc st)).trans (ih.cons r)

theorem mem_insertDesc (x r : Row) (l : List Row) :
    x ∈ insertDesc r l ↔ x = r ∨ x ∈ l :=
  ⟨fun h => by
    have := (insertDesc_perm r l).mem_iff.mp h
    simpa using this,
   fun h => (insertDesc_perm r l).mem_iff.mpr (by simpa using h)⟩

theorem insertDesc_sorted (r : Row) (l : List Row) (hs : l.Pairwise rowDescP) :
    (insertDesc r l).Pairwise rowDescP := by
  induction l with
  | nil => simp [insertDesc, List.pairwise_singleton]
  | cons x xs ih =>
    rw [insertDesc]
    rcases List.pairwise_cons.mp hs with ⟨hx, hxs⟩
    by_cases h : strLeB x.created_at r.created_at = true
    · rw [if_pos h]
      refine List.pairwise_cons.mpr ⟨?_, hs⟩
      intro y hy
      rcases List.mem_cons.mp hy with rfl | hy
      · exact h
      · exact strLeB_trans _ _ _ (hx y hy) h
    · rw [if_neg h]
      refine List.pairwise_cons.mpr ⟨?_, ih hxs⟩
      intro y hy
      rcases (mem_insertDesc y r xs).mp hy with rfl | hy
      · rcases strLeB_total x.created_at y.created_at with ht | ht
        · exact absurd ht h
        · exact ht
      · exact hx y hy

theorem sortByCreatedDesc_sorted (st : Store) :
    (sortByCreatedDesc st).Pairwise rowDescP := by
  induction st with
  | nil => exact List.Pairwise.nil
  | cons r st ih => exact insertDesc_sorted r (sortByCreatedDesc st) ih

/-- A list sorted descending with pairwise-distinct keys is determined by
its multiset of elements. -/
theorem sorted_perm_eq (l₁ : List Row) :
    ∀ l₂, l₁.Perm l₂ → l₁.Pairwise rowDescP → l₂.Pairwise rowDescP →
      l₁.Pairwise (fun a b => a.created_at ≠ b.created_at) → l₁ = l₂ := by
  induction l₁ with
  | nil => intro l₂ hp _ _ _; exact (hp.nil_eq).symm ▸ rfl
  | cons a l ih =>
    intro l₂ hp hs₁ hs₂ hd
    cases l₂ with
    | nil => exact absurd hp.symm (by simp)
    | cons b l₂ =>
      rcases List.pairwise_cons.mp hs₁ with ⟨ha, hl⟩
      rcases List.pairwise_cons.mp hs₂ with ⟨hb, hl₂⟩
      rcases List.pairwise_cons.mp hd with ⟨hda, hdl⟩
      have hab : a = b := by
        have hmem : a ∈ b :: l₂ := hp.mem_iff.mp (by simp)
        rcases List.mem_cons.mp hmem with h | h
        · exact h
        · have hmemb : b ∈ a :: l := hp.symm.mem_iff.mp (by simp)
          rcases List.mem_cons.mp hmemb with h2 | h2
          · exact h2.symm
          · have h3 : strLeB a.created_at b.created_at = true := hb a h
            have h4 : strLeB b.created_at a.created_at = true := ha b h2
            have h5 : a.created_at = b.created_at := strLeB_antisymm _ _ h3 h4
            exact absurd h5 (hda b h2)
      subst hab
      have hp' : l.Perm l₂ := hp.cons_inv
      rw [ih l₂ hp' hl hl₂ hdl]

/-- The summary `list_sessions` computes for one row. -/
def mkSummary (r : Row) : Summary := ⟨r.id, r.created_at, turnCount r.data⟩

/-- C5: corruption isolation in `list_sessions`: the listing always
contains a summary for every row; a row whose stored payload does not
decode is reported with `turns = 0`; a row holding an encoded transcript
is reported with the exact number of its messages. -/
theorem C5_corruption_isolation :
    ∀ st : Store,
      (list_sessions st).length = st.length ∧
      (∀ r ∈ st, mkSummary r ∈ list_sessions st) ∧
      (∀ (data : String) (e : PyExc), loads data = .error e → turnCount data = 0) ∧
      (∀ msgs : List Json, turnCount (encodeTranscript msgs) = msgs.length) := by
  intro st
  refine ⟨?_, ?_, ?_, ?_⟩
  · rw [list_sessions, List.length_map]
    exact (sortByCreatedDesc_perm st).length_eq
  · intro r hr
    rw [list_sessions]
    exact List.mem_map_of_mem _ ((sortByCreatedDesc_perm st).mem_iff.mpr hr)
  · intro data e he
    rw [turnCount, he]
  · intro msgs
    have h : loads (encodeTranscript msgs) = .ok (.arr msgs) := by
      rw [encodeTranscript, to_jsonable_python]
      exact loads_dumps _
    rw [turnCount, h]

/-- C5 witness: a concrete two-row store, one valid row with two
messages and one corrupt row. -/
theorem C5_corruption_isolation_witness :
    mkSummary ⟨ "a", "t1", "[1, 2]"⟩
      ∈ list_sessions [⟨ "a", "t1", "[1, 2]"⟩, ⟨ "b", "t2", "xx"⟩] ∧
    turnCount "xx" = 0 ∧
    turnCount (encodeTranscript [ .int 1]) = 1 :=
  ⟨(C5_corruption_isolation [⟨ "a", "t1", "[1, 2]"⟩, ⟨ "b", "t2", "xx"⟩]).2.1 _ (by simp),
   (C5_corruption_isolation []).2.2.1 "xx" .jsonDecodeError rfl,
   (C5_corruption_isolation []).2.2.2 [ .int 1]⟩

/-- The listing order between adjacent summaries. -/
def summaryDescP (a b : Summary) : Prop := strLeB b.created_at a.created_at = true

/-- C7: `list_sessions` is sorted by `created_at` descending (most
recent first) on every store state — the listing is a permutation of the
rows' summaries arranged in descending `created_at` order; in
particular, for any three rows with strictly increasing timestamps
t1 < t2 < t3, stored in any order, the listing is [t3, t2, t1]. -/
theorem C7_list_sorted_desc :
    (∀ st : Store, (list_sessions st).Pairwise summaryDescP ∧
       (list_sessions st).Perm (st.map mkSummary)) ∧
    (∀ (r1 r2 r3 : Row) (st : Store), st.Perm [r1, r2, r3] →
       strLeB r1.created_at r2.created_at = true → r1.created_at ≠ r2.created_at →
       strLeB r2.created_at r3.created_at = true → r2.created_at ≠ r3.created_at →
       list_sessions st = [mkSummary r3, mkSummary r2, mkSummary r1]) := by
  constructor
  · intro st
    constructor
    · rw [list_sessions]
      exact (List.pairwise_map).mpr
        ((sortByCreatedDesc_sorted st).imp (fun h => h))
    · rw [list_sessions]
      exact (sortByCreatedDesc_perm st).map mkSummary
  · intro r1 r2 r3 st hst h12 d12 h23 d23
    have h13 : strLeB r1.created_at r3.created_at = true := strLeB_trans _ _ _ h12 h23
    have d13 : r1.created_at ≠ r3.created_at := by
      intro h
      have hba : strLeB r3.created_at r2.created_at = true := h ▸ h12
      exact d23 (strLeB_antisymm _ _ h23 hba)
    have hrev : ([r1, r2, r3] : List Row).Perm [r3, r2, r1] := by
      have h : ([r1, r2, r3] : List Row).reverse = [r3, r2, r1] := by simp
      exact h ▸ ([r1, r2, r3] : List Row).reverse_perm.symm
    have hperm : (sortByCreatedDesc st).Perm [r3, r2, r1] :=
      (sortByCreatedDesc_perm st).trans (hst.trans hrev)
    have hsorted2 : ([r3, r2, r1] : List Row).Pairwise rowDescP := by
      refine List.pairwise_cons.mpr ⟨?_, List.pairwise_cons.mpr ⟨?_, ?_⟩⟩
      · intro y hy
        rcases List.mem_cons.mp hy with rfl | hy
        · exact h23
        · rcases List.mem_cons.mp hy with rfl | hy
          · exact h13
          · simp at hy
      · intro y hy
        rcases List.mem_cons.mp hy with rfl | hy
        · exact h12
        · simp at hy
      · simp [List.pairwise_singleton]
    have hdist2 : ([r3, r2, r1] : List Row).Pairwise
        (fun a b => a.created_at ≠ b.created_at) := by
      refine List.pairwise_cons.mpr ⟨?_, List.pairwise_cons.mpr ⟨?_, ?_⟩⟩
      · intro y hy
        rcases List.mem_cons.mp hy with rfl | hy
        · exact fun h => d23 h.symm
        · rcases List.mem_cons.mp hy with rfl | hy
          · exact fun h => d13 h.symm
          · simp at hy
      · intro y hy
        rcases List.mem_cons.mp hy with rfl | hy
        · exact fun h => d12 h.symm
        · simp at hy
      · simp [List.pairwise_singleton]
    have hdist1 : (sortByCreatedDesc st).Pairwise
        (fun a b => a.created_at ≠ b.created_at) := by
      refine (List.Perm.pairwise_iff ?_ hperm).mpr hdist2
      intro a b h hab
      exact h hab.symm
    have heq : sortByCreatedDesc st = [r3, r2, r1] :=
      sorted_perm_eq _ _ hperm (sortByCreatedDesc_sorted st) hsorted2 hdist1
    rw [list_sessions, heq]
    rfl

/-- C7 witness: three concrete rows with t1 < t2 < t3 inserted in
scrambled order are listed most recent first. -/
theorem C7_list_sorted_desc_witness :
    list_sessions [⟨ "b", "t2", "[]"⟩, ⟨ "c", "t3", "[]"⟩, ⟨ "a", "t1", "[]"⟩]
      = [mkSummary ⟨ "c", "t3", "[]"⟩, mkSummary ⟨ "b", "t2", "[]"⟩,
         mkSummary ⟨ "a", "t1", "[]"⟩] :=
  C7_list_sorted_desc.2 ⟨ "a", "t1", "[]"⟩ ⟨ "b", "t2", "[]"⟩ ⟨ "c", "t3", "[]"⟩
    [⟨ "b", "t2", "[]"⟩, ⟨ "c", "t3", "[]"⟩, ⟨ "a", "t1", "[]"⟩]
    (by decide) (by decide) (by decide) (by decide) (by decide)

/-- The ids of the rows of the store, in row order. -/
def idsOf (st : Store) : List String := st.map (fun r => r.id)

/-- A run of N `create_session` calls, each drawing its own
`(uuid4, timestamp)` pair; the run stops at the first raised
IntegrityError, as the program would. -/
def createMany : List (String × String) → Store → Except PyExc (Store × List String)
  | [], st => .ok (st, [])
  | (sid, ts) :: ps, st =>
    match create_session sid ts st with
    | .error e => .error e
    | .ok (st', rid) =>
      match createMany ps st' with
      | .error e => .error e
      | .ok (st'', ids) => .ok (st'', rid :: ids)

theorem createMany_spec (ps : List (String × String)) :
    ∀ st st' ids, createMany ps st = .ok (st', ids) →
      idsOf st' = idsOf st ++ ids ∧ ids.Nodup ∧ ∀ i ∈ ids, i ∉ idsOf st := by
  induction ps with
  | nil =>
    intro st st' ids h
    rw [createMany] at h
    injection h with h
    injection h with h1 h2
    subst h1
    subst h2
    simp
  | cons p ps ih =>
    intro st st' ids h
    obtain ⟨sid, ts⟩ := p
    rw [createMany] at h
    by_cases hmem : st.any (fun r => r.id = sid) = true
    · rw [create_session, if_pos hmem] at h
      exact absurd h (by simp)
    · rw [create_session, if_neg hmem] at h
      have h2 : (match createMany ps (st ++ [⟨sid, ts, "[]"⟩]) with
          | .error e => (.error e : Except PyExc (Store × List String))
          | .ok (st'', ids') => .ok (st'', sid :: ids'))
          = .ok (st', ids) := h
      clear h
      have hnotin : sid ∉ idsOf st := by
        intro hin
        apply hmem
        rw [List.any_eq_true]
        obtain ⟨r, hr, hid⟩ := List.mem_map.mp hin
        exact ⟨r, hr, by simp [hid]⟩
      cases hrec : createMany ps (st ++ [⟨sid, ts, "[]"⟩]) with
      | error e => rw [hrec] at h2; exact absurd h2 (by simp)
      | ok res =>
        obtain ⟨st'', ids'⟩ := res
        rw [hrec] at h2
        injection h2 with h
        injection h with h1 h2
        subst h1
        subst h2
        obtain ⟨hids, hnd, hfresh⟩ := ih _ _ _ hrec
        have hids2 : idsOf (st ++ [⟨sid, ts, "[]"⟩]) = idsOf st ++ [sid] := by
          simp [idsOf]
        refine ⟨by rw [hids, hids2]; simp, ?_, ?_⟩
        · refine List.nodup_cons.mpr ⟨?_, hnd⟩
          intro hin
          have := hfresh sid hin
          rw [hids2] at this
          simp at this
        · intro i hi
          rcases List.mem_cons.mp hi with rfl | hi
          · exact hnotin
          · intro hin
            have := hfresh i hi
            rw [hids2] at this
            exact this (by simp [hin])

/-- C8: session-id uniqueness.  A run of N successful `create_session`
calls returns N pairwise-distinct ids (the PRIMARY KEY insert refuses a
duplicate), and neither a successful create nor any save ever makes two
rows share an id: create preserves id-uniqueness of the table, and save
leaves the id column unchanged. -/
theorem C8_session_id_uniqueness :
    (∀ (ps : List (String × String)) (st st' : Store) (ids : List String),
       createMany ps st = .ok (st', ids) → ids.Nodup) ∧
    (∀ (ps : List (String × String)) (st st' : Store) (ids : List String),
       createMany ps st = .ok (st', ids) → (idsOf st).Nodup → (idsOf st').Nodup) ∧
    (∀ (sid ts : String) (st st' : Store) (rid : String),
       create_session sid ts st = .ok (st', rid) →
       rid = sid ∧ ((idsOf st).Nodup → (idsOf st').Nodup)) ∧
    (∀ (sid : String) (msgs : List Json) (st : Store),
       idsOf (save_messages sid msgs st) = idsOf st) := by
  refine ⟨?_, ?_, ?_, ?_⟩
  · intro ps st st' ids h
    exact (createMany_spec ps st st' ids h).2.1
  · intro ps st st' ids h hnd
    obtain ⟨hids, hnd', hfresh⟩ := createMany_spec ps st st' ids h
    rw [hids]
    rw [List.nodup_append]
    exact ⟨hnd, hnd', fun i hi => fun hin => hfresh i hin hi⟩
  · intro sid ts st st' rid h
    by_cases hmem : st.any (fun r => r.id = sid) = true
    · rw [create_session, if_pos hmem] at h
      exact absurd h (by simp)
    · rw [create_session, if_neg hmem] at h
      injection h with h
      injection h with h1 h2
      subst h1
      subst h2
      refine ⟨rfl, fun hnd => ?_⟩
      have hnotin : sid ∉ idsOf st := by
        intro hin
        apply hmem
        rw [List.any_eq_true]
        obtain ⟨r, hr, hid⟩ := List.mem_map.mp hin
        exact ⟨r, hr, by simp [hid]⟩
      rw [show idsOf (st ++ [⟨sid, ts, "[]"⟩]) = idsOf st ++ [sid] from by simp [idsOf]]
      simp [List.nodup_append, hnd, hnotin]
  · intro sid msgs st
    rw [idsOf, save_messages, List.map_map]
    apply List.map_congr_left
    intro r hr
    by_cases h : r.id = sid
    · simp [h]
    · simp [h]

/-- C8 witness: two successful creates yield distinct ids and a
duplicate-free table. -/
theorem C8_session_id_uniqueness_witness :
    ( ["u1", "u2"] : List String).Nodup ∧ (idsOf [⟨ "u1", "t1", "[]"⟩, ⟨ "u2", "t2", "[]"⟩]).Nodup :=
  ⟨C8_session_id_uniqueness.1 [( "u1", "t1"), ( "u2", "t2")] []
      [⟨ "u1", "t1", "[]"⟩, ⟨ "u2", "t2", "[]"⟩] [ "u1", "u2"] rfl,
   C8_session_id_uniqueness.2.1 [( "u1", "t1"), ( "u2", "t2")] []
      [⟨ "u1", "t1", "[]"⟩, ⟨ "u2", "t2", "[]"⟩] [ "u1", "u2"] rfl (by decide)⟩

theorem pyLower_ne_n_of_digits (s : String) (h : pyIsDigit s = true) :
    pyLower s ≠ "n" := by
  intro he
  have hdata : s.data.map asciiLower = [ 'n'] := congrArg String.data he
  rw [pyIsDigit, Bool.and_eq_true] at h
  obtain ⟨hne, hall⟩ := h
  cases hd : s.data with
  | nil => rw [hd] at hdata; simp at hdata
  | cons c cs =>
    rw [hd] at hdata
    rw [List.map_cons] at hdata
    injection hdata with h1 h2
    have hdig : pyDigitChar c = true := by
      rw [List.all_eq_true] at hall
      exact hall c (by rw [hd]; simp)
    simp only [pyDigitChar, Bool.or_eq_true, Bool.and_eq_true,
      decide_eq_true_eq] at hdig
    rw [asciiLower, if_neg (by omega)] at h1
    have : c.toNat = ( 'n' : Char).toNat := by rw [h1]
    have hn : ( 'n' : Char).toNat = 110 := by decide
    omega

/-- C9 counterexample: the selector does not resolve every other input
to a re-prompt, and an in-range numeric selection does not
unconditionally yield the session with its transcript.  The input `"²"`
satisfies `str.isdigit`, so the numeric guard evaluates `int("²")`,
which raises an uncaught `ValueError` — the selection crashes instead
of re-prompting; and selecting a row whose stored transcript does not
decode crashes with the decode error instead of resuming. -/
theorem C9_counterexample :
    choose_session [⟨ "a", "t1", "[]"⟩] "f" "ts" [] [ "\xb2"] = .error .valueError ∧
    choose_session [⟨ "a", "t1", "not json"⟩] "f" "ts" [] [ "1"]
      = .error .jsonDecodeError :=
  ⟨rfl, rfl⟩

/-- C9 (amended): the session selector resolves each interaction as
follows.  With no stored sessions the prompt is bypassed and a session
is created; an `n`/`N` answer creates a session; an `isdigit`-true
answer on which `int()` succeeds with an in-range value resumes the
corresponding listed session, loading its transcript via
`load_messages` — with the load's decode error propagating (crashing
the selection) when the stored transcript is corrupt; an out-of-range
value or a non-`isdigit` answer re-prompts on the remaining input,
without error and without picking a default; but an `isdigit`-true
answer on which `int()` raises (a digit-typed non-decimal character
such as `"²"`) crashes the selection with the uncaught `ValueError`;
and a created session starts with the stored empty transcript `"[]"`,
which decodes to the empty message list. -/
theorem C9_selector_resolution :
    (∀ (st : Store) (fs ts : String) (h₀ : List Json) (inputs : List String),
       list_sessions st = [] →
       choose_session st fs ts h₀ inputs
         = (match create_session fs ts st with
            | .error e => .error e
            | .ok (st', sid) => .ok (some ⟨sid, h₀, st'⟩))) ∧
    (∀ (st : Store) (fs ts : String) (h₀ : List Json) (c : String) (rest : List String),
       list_sessions st ≠ [] → pyLower (pyStrip c) = "n" →
       choose_session st fs ts h₀ (c :: rest)
         = (match create_session fs ts st with
            | .error e => .error e
            | .ok (st', sid) => .ok (some ⟨sid, h₀, st'⟩))) ∧
    (∀ (st : Store) (fs ts : String) (h₀ : List Json) (c : String) (rest : List String)
       (k : Nat),
       list_sessions st ≠ [] →
       pyIsDigit (pyStrip c) = true → pyInt (pyStrip c) = .ok k →
       1 ≤ k → k ≤ (list_sessions st).length →
       choose_session st fs ts h₀ (c :: rest)
         = (match load_messages
              ((list_sessions st).getD (k - 1) ⟨ "", "", 0⟩).id st with
            | .error e => .error e
            | .ok h => .ok (some ⟨((list_sessions st).getD (k - 1)
                ⟨ "", "", 0⟩).id, h, st⟩))) ∧
    (∀ (st : Store) (fs ts : String) (h₀ : List Json) (c : String) (rest : List String),
       list_sessions st ≠ [] →
       pyLower (pyStrip c) ≠ "n" → pyIsDigit (pyStrip c) = false →
       choose_session st fs ts h₀ (c :: rest) = choose_session st fs ts h₀ rest) ∧
    (∀ (st : Store) (fs ts : String) (h₀ : List Json) (c : String) (rest : List String)
       (k : Nat),
       list_sessions st ≠ [] →
       pyIsDigit (pyStrip c) = true → pyInt (pyStrip c) = .ok k →
       ¬(1 ≤ k ∧ k ≤ (list_sessions st).length) →
       choose_session st fs ts h₀ (c :: rest) = choose_session st fs ts h₀ rest) ∧
    (∀ (st : Store) (fs ts : String) (h₀ : List Json) (c : String) (rest : List String)
       (e : PyExc),
       list_sessions st ≠ [] →
       pyIsDigit (pyStrip c) = true → pyInt (pyStrip c) = .error e →
       choose_session st fs ts h₀ (c :: rest) = .error e) ∧
    (∀ (fs ts : String) (st st' : Store) (rid : String),
       create_session fs ts st = .ok (st', rid) →
       rid = fs ∧ (⟨fs, ts, "[]"⟩ : Row) ∈ st' ∧ decodeTranscript "[]" = .ok []) := by
  refine ⟨?_, ?_, ?_, ?_, ?_, ?_, ?_⟩
  · intro st fs ts h₀ inputs hempty
    rw [choose_session, if_pos (by rw [hempty]; rfl)]
  · intro st fs ts h₀ c rest hne hn
    rw [choose_session, if_neg (by
      intro h
      exact hne (List.isEmpty_iff.mp h))]
    rw [chooseFrom, if_pos hn]
  · intro st fs ts h₀ c rest k hne hdig hint hlo hhi
    rw [choose_session, if_neg (by
      intro h
      exact hne (List.isEmpty_iff.mp h))]
    rw [chooseFrom, if_neg (pyLower_ne_n_of_digits _ hdig), if_pos hdig]
    simp only [hint]
    rw [if_pos ⟨hlo, hhi⟩]
  · intro st fs ts h₀ c rest hne hnn hnd
    rw [choose_session, if_neg (by
      intro h
      exact hne (List.isEmpty_iff.mp h))]
    rw [chooseFrom, if_neg hnn, if_neg (by rw [hnd]; exact Bool.false_ne_true)]
    rw [choose_session, if_neg (by
      intro h
      exact hne (List.isEmpty_iff.mp h))]
  · intro st fs ts h₀ c rest k hne hdig hint hout
    rw [choose_session, if_neg (by
      intro h
      exact hne (List.isEmpty_iff.mp h))]
    rw [chooseFrom, if_neg (pyLower_ne_n_of_digits _ hdig), if_pos hdig]
    simp only [hint]
    rw [if_neg hout]
    rw [choose_session, if_neg (by
      intro h
      exact hne (List.isEmpty_iff.mp h))]
  · intro st fs ts h₀ c rest e hne hdig hint
    rw [choose_session, if_neg (by
      intro h
      exact hne (List.isEmpty_iff.mp h))]
    rw [chooseFrom, if_neg (pyLower_ne_n_of_digits _ hdig), if_pos hdig]
    simp only [hint]
  · intro fs ts st st' rid h
    by_cases hmem : st.any (fun r => r.id = fs) = true
    · rw [create_session, if_pos hmem] at h
      exact absurd h (by simp)
    · rw [create_session, if_neg hmem] at h
      injection h with h
      injection h with h1 h2
      subst h1
      subst h2
      exact ⟨rfl, by simp, rfl⟩

/-- C9 witness for the amended claim: automatic creation on an empty
catalog; numeric resume with the stored transcript loaded; a re-prompt
on a non-digit answer; and the uncaught `ValueError` crash on the
superscript-digit answer. -/
theorem C9_selector_resolution_witness :
    choose_session [] "f" "t" [] [] = .ok (some ⟨ "f", [], [⟨ "f", "t", "[]"⟩]⟩) ∧
    choose_session [⟨ "a", "t1", "[7]"⟩] "f" "t" [] [ "1"]
      = .ok (some ⟨ "a", [ .int 7], [⟨ "a", "t1", "[7]"⟩]⟩) ∧
    choose_session [⟨ "a", "t1", "[7]"⟩] "f" "t" [] [ "zz", "x"]
      = choose_session [⟨ "a", "t1", "[7]"⟩] "f" "t" [] [ "x"] ∧
    choose_session [⟨ "a", "t1", "[7]"⟩] "f" "t" [] [ "\xb2"] = .error .valueError :=
  ⟨(C9_selector_resolution.1 [] "f" "t" [] [] rfl).trans rfl,
   (C9_selector_resolution.2.2.1 [⟨ "a", "t1", "[7]"⟩] "f" "t" [] "1" [] 1
      (by decide) rfl rfl (by decide) (by decide)).trans rfl,
   C9_selector_resolution.2.2.2.1 [⟨ "a", "t1", "[7]"⟩] "f" "t" [] "zz" [ "x"]
      (by decide) (by decide) rfl,
   C9_selector_resolution.2.2.2.2.2.1 [⟨ "a", "t1", "[7]"⟩] "f" "t" [] "\xb2" []
      .valueError (by decide) rfl rfl⟩

/-- C10: at the conversation prompt an input line that is empty after
stripping is not filtered out: it is forwarded to the agent as an
ordinary turn (the agent runs on `""` and the resulting transcript is
persisted and the reply printed); and the only events that avoid an
agent invocation and end the loop are end-of-input/interrupt and the
case-insensitive exit keywords. -/
theorem C10_empty_input_is_a_turn :
    (∀ (agentRun : String → List Json → Except PyExc (List Json × String))
       (sid : String) (h : List Json) (st : Store) (s : String) (msgs : List Json)
       (out : String),
       pyStrip s = "" → agentRun "" h = .ok (msgs, out) →
       processTurn agentRun saveOk sid h st (.line s)
         = .next msgs (save_messages sid msgs st) [ "Agent: " ++ out]) ∧
    (∀ (agentRun : String → List Json → Except PyExc (List Json × String))
       (saveFn : String → List Json → Store → Except PyExc Store)
       (sid : String) (h : List Json) (st : Store) (ev : InEvent),
       (∃ p, processTurn agentRun saveFn sid h st ev = .ended p) ↔
       (ev = .eof ∨ ∃ s, ev = .line s ∧
         (pyLower (pyStrip s) = "exit" ∨ pyLower (pyStrip s) = "quit"))) := by
  constructor
  · intro agentRun sid h st s msgs out hstrip hagent
    rw [processTurn, hstrip]
    rw [if_neg (by decide)]
    rw [hagent]
    rfl
  · intro agentRun saveFn sid h st ev
    cases ev with
    | eof =>
      constructor
      · intro _
        exact Or.inl rfl
      · intro _
        exact ⟨[ "Exiting…"], rfl⟩
    | line s =>
      by_cases hc : pyLower (pyStrip s) = "exit" ∨ pyLower (pyStrip s) = "quit"
      · constructor
        · intro _
          exact Or.inr ⟨s, rfl, hc⟩
        · intro _
          rw [processTurn, if_pos hc]
          exact ⟨[ "Goodbye!"], rfl⟩
      · constructor
        · rintro ⟨p, hp⟩
          rw [processTurn, if_neg hc] at hp
          exfalso
          cases hagent : agentRun (pyStrip s) h with
          | error e =>
            rw [hagent] at hp
            exact TurnOutcome.noConfusion hp
          | ok res =>
            obtain ⟨msgs, out⟩ := res
            rw [hagent] at hp
            have hp2 : (match saveFn sid msgs st with
                | .error e => TurnOutcome.raised e msgs st []
                | .ok st' => TurnOutcome.next msgs st' [ "Agent: " ++ out])
                = TurnOutcome.ended p := hp
            cases hsave : saveFn sid msgs st with
            | error e =>
              rw [hsave] at hp2
              exact TurnOutcome.noConfusion hp2
            | ok st' =>
              rw [hsave] at hp2
              exact TurnOutcome.noConfusion hp2
        · rintro (heq | ⟨s', heq, hcond⟩)
          · exact InEvent.noConfusion heq
          · injection heq with heq
            exact absurd (heq ▸ hcond) hc

/-- C10 witness: a whitespace-only line is forwarded as an empty-string
turn, the resulting transcript is persisted and the reply printed. -/
theorem C10_empty_input_is_a_turn_witness :
    processTurn (fun cmd h => .ok (h ++ [ .str cmd], "done")) saveOk "s1" []
        [⟨ "s1", "t0", "[]"⟩] (.line "   ")
      = .next [ .str ""]
          (save_messages "s1" [ .str ""] [⟨ "s1", "t0", "[]"⟩]) [ "Agent: done"] :=
  C10_empty_input_is_a_turn.1 (fun cmd h => .ok (h ++ [ .str cmd], "done"))
    "s1" [] [⟨ "s1", "t0", "[]"⟩] "   " [ .str ""] "done" rfl rfl

/-- C2 counterexample: with a failing save, the turn's reply is NOT
displayed (nothing is printed) and the loop does not continue — the
exception escapes and the remaining input is never processed, refuting
the claim that the reply is still shown and the loop continues with a
warning. -/
theorem C2_counterexample :
    runLoop (fun cmd h => .ok (h ++ [ .str cmd], "the reply"))
        (fun _ _ _ => .error .storeUnavailable) "s1" [] [⟨ "s1", "t0", "[]"⟩]
        [ .line "hi", .line "again"]
      = ([ .str "hi"], [⟨ "s1", "t0", "[]"⟩], [], some .storeUnavailable) := rfl

/-- C2 (amended): if the save raises during the PERSISTING step, the
loop body has no handler: the exception propagates, the reply is not
displayed, the loop terminates without processing further input, and the
in-memory transcript (already updated with the turn) is left ahead of
the unchanged durable state. -/
theorem C2_save_failure_propagates :
    ∀ (agentRun : String → List Json → Except PyExc (List Json × String))
      (saveFn : String → List Json → Store → Except PyExc Store)
      (sid : String) (h : List Json) (st : Store) (s : String) (msgs : List Json)
      (out : String) (e : PyExc),
      ¬(pyLower (pyStrip s) = "exit" ∨ pyLower (pyStrip s) = "quit") →
      agentRun (pyStrip s) h = .ok (msgs, out) →
      saveFn sid msgs st = .error e →
      processTurn agentRun saveFn sid h st (.line s) = .raised e msgs st [] ∧
      (∀ evs, runLoop agentRun saveFn sid h st (.line s :: evs)
        = (msgs, st, [], some e)) := by
  intro agentRun saveFn sid h st s msgs out e hnx hagent hsave
  have hturn : processTurn agentRun saveFn sid h st (.line s) = .raised e msgs st [] := by
    rw [processTurn, if_neg hnx, hagent]
    show (match saveFn sid msgs st with
      | .error e => TurnOutcome.raised e msgs st []
      | .ok store' => TurnOutcome.next msgs store' [ "Agent: " ++ out])
      = TurnOutcome.raised e msgs st []
    rw [hsave]
  refine ⟨hturn, ?_⟩
  intro evs
  rw [runLoop, hturn]

/-- C2 witness for the amended claim, at a concrete failing save. -/
theorem C2_save_failure_propagates_witness :
    processTurn (fun cmd h => .ok (h ++ [ .str cmd], "r"))
        (fun _ _ _ => .error .storeUnavailable) "s1" [] [] (.line "hi")
      = .raised .storeUnavailable [ .str "hi"] [] [] :=
  (C2_save_failure_propagates (fun cmd h => .ok (h ++ [ .str cmd], "r"))
    (fun _ _ _ => .error .storeUnavailable) "s1" [] [] "hi" [ .str "hi"] "r"
    .storeUnavailable (by decide) rfl rfl).1

/-- C3 counterexample: when the agent invocation fails, no error message
is printed and the loop does not return to awaiting input — the
exception escapes and the remaining input is never processed.  The
transcript is indeed unchanged and nothing is persisted, but the
recovery the claim describes does not happen. -/
theorem C3_counterexample :
    runLoop (fun _ _ => .error .agentError) saveOk "s1" [ .int 1]
        [⟨ "s1", "t0", "[1]"⟩] [ .line "go", .line "next"]
      = ([ .int 1], [⟨ "s1", "t0", "[1]"⟩], [], some .agentError) := rfl

/-- C3 (amended): if the agent invocation fails, the failed turn is not
persisted and the in-memory transcript is unchanged, but the loop body
has no handler: no error is shown, and the exception terminates the loop
without processing further input (no retry, no return to the prompt). -/
theorem C3_agent_failure_propagates :
    ∀ (agentRun : String → List Json → Except PyExc (List Json × String))
      (saveFn : String → List Json → Store → Except PyExc Store)
      (sid : String) (h : List Json) (st : Store) (s : String) (e : PyExc),
      ¬(pyLower (pyStrip s) = "exit" ∨ pyLower (pyStrip s) = "quit") →
      agentRun (pyStrip s) h = .error e →
      processTurn agentRun saveFn sid h st (.line s) = .raised e h st [] ∧
      (∀ evs, runLoop agentRun saveFn sid h st (.line s :: evs)
        = (h, st, [], some e)) := by
  intro agentRun saveFn sid h st s e hnx hagent
  have hturn : processTurn agentRun saveFn sid h st (.line s) = .raised e h st [] := by
    rw [processTurn, if_neg hnx, hagent]
  refine ⟨hturn, ?_⟩
  intro evs
  rw [runLoop, hturn]

/-- C3 witness for the amended claim, at a concrete failing agent. -/
theorem C3_agent_failure_propagates_witness :
    processTurn (fun _ _ => .error .agentError) saveOk "s1" [ .int 1] [] (.line "go")
      = .raised .agentError [ .int 1] [] [] :=
  (C3_agent_failure_propagates (fun _ _ => .error .agentError) saveOk "s1" [ .int 1]
    [] "go" .agentError (by decide) rfl).1

/-- C4 counterexample: decoding empty stored input does NOT return the
empty sequence — `json.loads("")` raises, `load_messages` propagates the
raw decode error, and the session selector propagates it further (the
resume attempt crashes) instead of surfacing a recoverable
"cannot resume this session". -/
theorem C4_counterexample :
    load_messages "s1" [⟨ "s1", "t0", ""⟩] = .error .jsonDecodeError ∧
    choose_session [⟨ "s1", "t0", ""⟩] "f" "ts" [] [ "1"]
      = .error .jsonDecodeError :=
  ⟨rfl, rfl⟩

/-- C4 (amended): empty and whitespace-only stored input fails to decode
exactly like any other syntactically invalid input (a JSON decode
error); the decode error propagates uncaught through `load_messages`,
and through the session selector's resume branch, so a corrupt stored
transcript crashes the resume instead of being handled. -/
theorem C4_decode_errors_propagate :
    (∀ s : String, s.data.all isJsonWs = true → loads s = .error .jsonDecodeError) ∧
    (∀ (st : Store) (sid : String) (r : Row) (e : PyExc),
       st.find? (fun r => r.id = sid) = some r →
       decodeTranscript r.data = .error e →
       load_messages sid st = .error e) ∧
    (∀ (st : Store) (sessions : List Summary) (fs ts : String) (h₀ : List Json)
       (c : String) (rest : List String) (k : Nat) (e : PyExc),
       pyLower (pyStrip c) ≠ "n" →
       pyIsDigit (pyStrip c) = true → pyInt (pyStrip c) = .ok k →
       1 ≤ k → k ≤ sessions.length →
       load_messages (sessions.getD (k - 1) ⟨ "", "", 0⟩).id st = .error e →
       chooseFrom st sessions fs ts h₀ (c :: rest) = .error e) := by
  refine ⟨?_, ?_, ?_⟩
  · intro s hws
    have hdrop : s.data.dropWhile isJsonWs = [] := by
      rw [List.dropWhile_eq_nil_iff]
      intro x hx
      exact (List.all_eq_true.mp hws) x hx
    have hparse : parseValue (s.data.length + 1) s.data = none := by
      rw [parseValue.eq_def]
      simp only [hdrop]
    rw [loads, hparse]
  · intro st sid r e hfind hdec
    rw [load_messages, hfind]
    exact hdec
  · intro st sessions fs ts h₀ c rest k e hnn hdig hint hlo hhi hload
    rw [chooseFrom, if_neg hnn, if_pos hdig]
    simp only [hint]
    rw [if_pos ⟨hlo, hhi⟩, hload]

/-- C4 witness for the amended claim: whitespace-only input fails to
decode, the error passes through load, and through the selector. -/
theorem C4_decode_errors_propagate_witness :
    loads "  " = .error .jsonDecodeError ∧
    load_messages "s1" [⟨ "s1", "t0", "not json"⟩] = .error .jsonDecodeError ∧
    chooseFrom [⟨ "s1", "t0", "not json"⟩] [⟨ "s1", "t0", 0⟩] "f" "ts" [] [ "1"]
      = .error .jsonDecodeError :=
  ⟨C4_decode_errors_propagate.1 "  " (by decide),
   C4_decode_errors_propagate.2.1 [⟨ "s1", "t0", "not json"⟩] "s1"
     ⟨ "s1", "t0", "not json"⟩ .jsonDecodeError rfl rfl,
   C4_decode_errors_propagate.2.2 [⟨ "s1", "t0", "not json"⟩] [⟨ "s1", "t0", 0⟩]
     "f" "ts" [] "1" [] 1 .jsonDecodeError (by decide) rfl rfl (by decide) (by decide)
     rfl⟩
